import Mathlib

/-!
Verification of the control-plane core of the handoff-mcp repository.

Part 1: the workflow engine (`WorkflowEngine` in the repository source).
The shallow embedding translates the TypeScript source directly:

* `Date` values are modelled by a `Nat` counter `now` that the caller
  passes to every operation that stamps a date in the source
  (`new Date()`); per-step `startedAt`/`completedAt` stamps are kept,
  together with `metadata.updatedAt` (field `updatedAt` here).
* Fields that no operation of the engine ever reads or that only flow
  to external collaborators (name, description, projectId, assignee,
  inputs, outputs, error text, retryCount/maxRetries of a step,
  estimatedDuration/actualDuration, tags, context/session linkage,
  `averageStepDuration` which is set once to 0 and never updated) are
  omitted; no control flow of the translated operations depends on them.
* The event emitter (`this.emit ...`) and the `ContextManager`
  collaborator perform external I/O only and never change the
  engine's own state; those calls are dropped.
* Errors thrown by the source become an `Option EngineError` paired
  with the (possibly partially mutated, exactly as the in-place
  mutations of the source leave it) workflow.
-/

namespace Handoff

attribute [local semireducible] Rat.mul Rat.add Rat.inv Rat.sub

/-- Step statuses (`WorkflowStep.status` in the source). -/
inductive StepStatus where
  | pending
  | ready
  | running
  | completed
  | failed
  | skipped
deriving DecidableEq, Repr

/-- Workflow states (`WorkflowState` in the source). -/
inductive WState where
  | draft
  | ready
  | running
  | paused
  | blocked
  | review
  | completed
  | failed
  | cancelled
deriving DecidableEq, Repr

/-- Step types (`WorkflowStep.type`). All five string literals of the
union are non-empty, which the guard `validateWorkflow` relies on. -/
inductive StepType where
  | ai_task
  | human_review
  | automated
  | decision
  | parallelStep
deriving DecidableEq, Repr

/-- Transition triggers. -/
inductive Trigger where
  | start
  | pause
  | resume
  | complete
  | fail
  | block
  | unblock
  | cancel
  | review
  | approve
deriving DecidableEq, Repr

/-- A workflow step (`WorkflowStep`). An absent `dependencies` array in
the source behaves exactly like an empty one, so it is a plain list. -/
structure Step where
  id : String
  name : String
  type : StepType
  dependencies : List String
  status : StepStatus
  startedAt : Option Nat
  completedAt : Option Nat
deriving DecidableEq, Repr

/-- Workflow metrics (`Workflow.metrics`). -/
structure Metrics where
  stepsCompleted : Nat
  stepsTotal : Nat
  progressPercentage : Nat
  blockerCount : Nat
deriving DecidableEq, Repr

/-- A workflow instance (`Workflow`). -/
structure Workflow where
  state : WState
  steps : List Step
  currentStepId : Option String
  metrics : Metrics
  updatedAt : Nat
deriving DecidableEq, Repr

/-- Is the dependency reference `depId` satisfied in the step list `l`?
Mirrors the body of the loop of `checkDependencies`: look up the first
step whose name or id equals the reference and require it `completed`. -/
def depSatisfied (l : List Step) (depId : String) : Bool :=
  match l.find? (fun t => t.name == depId || t.id == depId) with
  | some dep => dep.status == .completed
  | none => false

/-- Models `WorkflowEngine.checkDependencies`, stated on the step list. -/
def checkDependenciesL (l : List Step) (s : Step) : Bool :=
  s.dependencies.all (fun depId => depSatisfied l depId)

/-- Models `WorkflowEngine.validateWorkflow`: non-empty step list and every
step has a truthy (non-empty) name; the `type` field of the source is a
union of non-empty string literals and hence always truthy. -/
def validateWorkflow (w : Workflow) : Bool :=
  decide (0 < w.steps.length) && w.steps.all (fun s => s.name != "")

/-- Models `WorkflowEngine.allStepsComplete`. -/
def allStepsComplete (w : Workflow) : Bool :=
  w.steps.all (fun s => s.status == .completed || s.status == .skipped)

/-- One step of the `for` loop of `prepareWorkflow`: the already
processed prefix is `done`, the rest of the array is `s :: rest`, and
`checkDependencies` is evaluated against the whole current array
(`done ++ s :: rest`), exactly as the in-place mutation of the source
lets later iterations see earlier promotions. -/
def promoteSteps (done : List Step) : List Step → List Step
  | [] => done
  | s :: rest =>
      if checkDependenciesL (done ++ s :: rest) s && s.status == .pending then
        promoteSteps (done ++ [{ s with status := .ready }]) rest
      else
        promoteSteps (done ++ [s]) rest

/-- The body of `startNextStep`: find the first step that is `ready`,
or `pending` with its dependencies met against the full current array
`all`, and set it `ready`. -/
def startNextOne (all : List Step) : List Step → List Step
  | [] => []
  | s :: rest =>
      if s.status == .ready || (s.status == .pending && checkDependenciesL all s) then
        { s with status := .ready } :: rest
      else
        s :: startNextOne all rest

/-- Models `WorkflowEngine.startNextStep`. -/
def startNextStep (w : Workflow) : Workflow :=
  { w with steps := startNextOne w.steps w.steps }

/-- Models `WorkflowEngine.prepareWorkflow`: promote every dependency-satisfied
pending step to `ready`; if any step is now `ready`, move straight to
the `running` state and start the next step. -/
def prepareWorkflow (w : Workflow) : Workflow :=
  let w1 : Workflow := { w with steps := promoteSteps [] w.steps }
  if w1.steps.any (fun s => s.status == .ready) then
    startNextStep { w1 with state := .running }
  else
    w1

/-- The per-step closed form of the promotion loop, used to reason
about `promoteSteps`: promote a pending step whose dependencies are
all completed in the original array. -/
def promoteOne (orig : List Step) (s : Step) : Step :=
  if checkDependenciesL orig s && s.status == .pending then { s with status := .ready } else s

/-- The relation the promotion loop maintains between a processed step
list and the original: ids, names and dependency lists agree, and a
status differs only by a pending-to-ready promotion (which never
changes whether a step is `completed`). -/
def promoLike (a b : Step) : Prop :=
  a.id = b.id ∧ a.name = b.name ∧ a.dependencies = b.dependencies ∧
  (a.status = b.status ∨ (a.status = .ready ∧ b.status = .pending))

/-- Models `WorkflowEngine.handleBlocker`: count the blocker. -/
def handleBlocker (w : Workflow) : Workflow :=
  { w with metrics := { w.metrics with blockerCount := w.metrics.blockerCount + 1 } }

/-- Update the first step with the given id (the source fetches the
step with `Array.find` and mutates it in place). -/
def updateFirstStep (l : List Step) (sid : String) (f : Step → Step) : List Step :=
  match l with
  | [] => []
  | s :: rest => if s.id == sid then f s :: rest else s :: updateFirstStep rest sid f

/-- Models `WorkflowEngine.resumeCurrentStep`: set the current step `running`
again (the context-manager notification is external). -/
def resumeCurrentStep (w : Workflow) : Workflow :=
  match w.currentStepId with
  | some sid =>
      match w.steps.find? (fun s => s.id == sid) with
      | some _ => { w with steps := updateFirstStep w.steps sid (fun s => { s with status := .running }) }
      | none => w
  | none => w

/-- Models `WorkflowEngine.handleFailure`: mark the current step `failed`. -/
def handleFailure (w : Workflow) (now : Nat) : Workflow :=
  match w.currentStepId with
  | some sid =>
      match w.steps.find? (fun s => s.id == sid) with
      | some _ =>
          let upd : Step → Step := fun s => { s with status := .failed, completedAt := some now }
          { w with steps := updateFirstStep w.steps sid upd }
      | none => w
  | none => w

/-- Models `WorkflowEngine.completeWorkflow` (action of `approve`). -/
def completeWorkflow (w : Workflow) (now : Nat) : Workflow :=
  { w with updatedAt := now,
           metrics := { w.metrics with progressPercentage := 100 } }

/-- Typed rendering of the errors `transition`, `executeStep` and
`completeStep` throw. -/
inductive EngineError where
  | stepNotFound
  | dependenciesNotMet
  | invalidTransition
  | conditionsNotMet
deriving DecidableEq, Repr

/-- A row of the transition table (`WorkflowTransition`): source state,
target state, trigger, optional guard, optional action. -/
structure TransRow where
  src : WState
  dst : WState
  trig : Trigger
  condition : Option (Workflow → Bool)
  action : Option (Workflow → Nat → Workflow)

/-- The transition table of `initializeTransitions`, in source order.
Actions that only notify collaborators (`pauseCurrentStep`, the
`cancel` action) or only recompute inert duration metadata
(`prepareReview`) change nothing the engine reads and are `none`. -/
def transitionTable : List TransRow :=
  [ { src := .draft, dst := .ready, trig := .start,
      condition := some validateWorkflow, action := some (fun w _ => prepareWorkflow w) },
    { src := .ready, dst := .running, trig := .start,
      condition := none, action := some (fun w _ => startNextStep w) },
    { src := .ready, dst := .blocked, trig := .block,
      condition := none, action := some (fun w _ => handleBlocker w) },
    { src := .running, dst := .paused, trig := .pause,
      condition := none, action := none },
    { src := .paused, dst := .running, trig := .resume,
      condition := none, action := some (fun w _ => resumeCurrentStep w) },
    { src := .running, dst := .blocked, trig := .block,
      condition := none, action := some (fun w _ => handleBlocker w) },
    { src := .blocked, dst := .running, trig := .unblock,
      condition := none, action := some (fun w _ => startNextStep w) },
    { src := .running, dst := .review, trig := .review,
      condition := some allStepsComplete, action := none },
    { src := .review, dst := .completed, trig := .approve,
      condition := none, action := some completeWorkflow },
    { src := .running, dst := .failed, trig := .fail,
      condition := none, action := some (fun w now => handleFailure w now) },
    { src := .draft, dst := .cancelled, trig := .cancel,
      condition := none, action := none } ]

/-- Does the row's guard accept the workflow (absent guard accepts)? -/
def condHolds (t : TransRow) (w : Workflow) : Bool :=
  match t.condition with
  | none => true
  | some c => c w

/-- The `for (const transition of validTransitions)` loop of
`transition`: take the first row whose guard holds, mutate `state` and
`updatedAt`, run the action; if every row's guard fails, throw. -/
def applyTransitions (now : Nat) : List TransRow → Workflow → Option EngineError × Workflow
  | [], w => (some .conditionsNotMet, w)
  | t :: rest, w =>
      if condHolds t w then
        let w1 : Workflow := { w with state := t.dst, updatedAt := now }
        match t.action with
        | some a => (none, a w1 now)
        | none => (none, w1)
      else
        applyTransitions now rest w

/-- Models `WorkflowEngine.transition` for a workflow already looked up. -/
def transitionW (w : Workflow) (trig : Trigger) (now : Nat) : Option EngineError × Workflow :=
  let valid := transitionTable.filter (fun t => t.src == w.state && t.trig == trig)
  if valid.isEmpty then (some .invalidTransition, w)
  else applyTransitions now valid w

/-- Look up a step by id (`workflow.steps.find(s => s.id === stepId)`). -/
def findStep (w : Workflow) (sid : String) : Option Step :=
  w.steps.find? (fun s => s.id == sid)

/-- Models `WorkflowEngine.executeStep`. -/
def executeStepW (w : Workflow) (sid : String) (now : Nat) : Option EngineError × Workflow :=
  match findStep w sid with
  | none => (some .stepNotFound, w)
  | some s =>
      if checkDependenciesL w.steps s then
        let upd : Step → Step := fun t => { t with status := .running, startedAt := some now }
        (none, { w with steps := updateFirstStep w.steps sid upd, currentStepId := some sid })
      else
        (some .dependenciesNotMet, w)

/-- Models `Math.round((a / b) * 100)` for the non-negative operands the
metrics update feeds it: `round(x) = floor(x + 1/2)`. -/
def jsRoundPct (a b : Nat) : Nat :=
  (200 * a + b) / (2 * b)

/-- The step mutation of `completeStep`: status `completed` plus the
completion stamp. -/
def completedUpd (now : Nat) : Step → Step :=
  fun t => { t with status := .completed, completedAt := some now }

/-- The in-place mutations of `completeStep` before its final branch:
mark the step completed and bump the metrics. -/
def completeStepCore (w : Workflow) (sid : String) (now : Nat) : Workflow :=
  let w1 : Workflow := { w with steps := updateFirstStep w.steps sid (completedUpd now) }
  let m := w1.metrics
  { w1 with metrics :=
    { m with stepsCompleted := m.stepsCompleted + 1,
             progressPercentage := jsRoundPct (m.stepsCompleted + 1) m.stepsTotal } }

/-- Models `WorkflowEngine.completeStep`: mark the step completed, bump the
metrics, then either trigger `review` (all steps done) or promote the
next ready step. An error of the inner `transition` call propagates,
with the earlier in-place mutations kept, exactly as in the source. -/
def completeStepW (w : Workflow) (sid : String) (now : Nat) : Option EngineError × Workflow :=
  match findStep w sid with
  | none => (some .stepNotFound, w)
  | some _ =>
      let w2 := completeStepCore w sid now
      if allStepsComplete w2 then
        transitionW w2 .review now
      else
        (none, startNextStep w2)

/-- Models `WorkflowEngine.createWorkflow` with `customSteps` (the caller
supplies the steps; the generated UUID and inert metadata are not part
of the state the engine reads). -/
def createWorkflowCustom (steps : List Step) (now : Nat) : Workflow :=
  { state := .draft,
    steps := steps,
    currentStepId := none,
    metrics := { stepsCompleted := 0, stepsTotal := steps.length,
                 progressPercentage := 0, blockerCount := 0 },
    updatedAt := now }

/-- One step blueprint of a workflow template (`WorkflowTemplate.steps`
entries; the description is inert). -/
structure TemplateStep where
  name : String
  type : StepType
  dependencies : List String
deriving DecidableEq, Repr

/-- The `feature-development` template of `loadDefaultTemplates`. -/
def featureDevelopmentSteps : List TemplateStep :=
  [ { name := "Requirements Analysis", type := .ai_task, dependencies := [] },
    { name := "Technical Design", type := .ai_task, dependencies := ["Requirements Analysis"] },
    { name := "Implementation", type := .ai_task, dependencies := ["Technical Design"] },
    { name := "Testing", type := .ai_task, dependencies := ["Implementation"] },
    { name := "Code Review", type := .human_review, dependencies := ["Testing"] },
    { name := "Documentation", type := .ai_task, dependencies := ["Code Review"] } ]

/-- Models `WorkflowEngine.createWorkflow` from a template: each blueprint
step receives a fresh id (the caller-visible UUIDs are passed in as
`stepIds`) and status `pending`. -/
def createWorkflowFromTemplate (tsteps : List TemplateStep) (stepIds : List String)
    (now : Nat) : Workflow :=
  let steps := (tsteps.zip stepIds).map (fun p =>
    { id := p.2, name := p.1.name, type := p.1.type,
      dependencies := p.1.dependencies, status := .pending,
      startedAt := none, completedAt := none : Step })
  createWorkflowCustom steps now

/-!
Part 2: the agent orchestrator (`AgentOrchestrator` in the repository
source).

* JavaScript numbers that carry fractional values (`currentLoad`,
  selection scores, success rates, durations) are modelled as exact
  rationals `ℚ`; `Map` objects keyed by id are modelled as
  insertion-ordered association lists whose `set` replaces the first
  entry with the key in place (as a JS `Map` keeps the original
  insertion position) and appends otherwise.
* Inert fields (agent `type`/`name`/`availability`/`metadata`,
  capability `frameworks`/`tools`, assignment `output` and the
  free-text task description) are omitted: no translated operation
  reads them.
* The event emitter, the `ContextManager` and the `WorkflowEngine`
  collaborator calls (`completeTask` forwards to
  `workflowEngine.completeStep`) do not touch the orchestrator's own
  state and are dropped.
* `new Date()` stamps become a `now : Nat` argument.
-/

/-- Agent statuses (`AgentStatus`). -/
inductive AgentStatus where
  | available
  | busy
  | offline
  | error
  | maintenance
deriving DecidableEq, Repr

/-- Capability categories (`AgentCapability.category`). -/
inductive CapCategory where
  | coding
  | analysis
  | writing
  | research
  | review
  | testing
  | deployment
deriving DecidableEq, Repr

/-- Models `AgentCapability` (frameworks/tools are never read by the
selection logic and are omitted). -/
structure AgentCapability where
  category : CapCategory
  skill : String
  proficiency : Nat
  languages : Option (List String)
deriving DecidableEq, Repr

/-- Models `Agent.performance`. `specialties` is a JS `Map` from skill to
success rate, modelled as an association list. -/
structure Performance where
  tasksCompleted : Nat
  averageCompletionTime : ℚ
  successRate : ℚ
  specialties : List (String × ℚ)
deriving DecidableEq, Repr

/-- An agent record (`Agent`). -/
structure Agent where
  id : String
  status : AgentStatus
  capabilities : List AgentCapability
  currentLoad : ℚ
  maxConcurrentTasks : Nat
  activeTasks : List String
  performance : Performance
deriving DecidableEq, Repr

/-- Task priorities. -/
inductive TaskPriority where
  | low
  | medium
  | high
  | critical
deriving DecidableEq, Repr

/-- Assignment statuses (`TaskAssignment.status`). -/
inductive AssignStatus where
  | assigned
  | inProgress
  | completed
  | failed
  | reassigned
deriving DecidableEq, Repr

/-- Models `TaskAssignment`. -/
structure TaskAssignment where
  taskId : String
  agentId : String
  workflowId : Option String
  stepId : Option String
  assignedAt : Nat
  startedAt : Option Nat
  completedAt : Option Nat
  status : AssignStatus
  priority : TaskPriority
  actualDuration : Option ℚ
  retryCount : Nat
  error : Option String
deriving DecidableEq, Repr

/-- Models `Partial<AgentCapability>` as used for task requirements: each
field optional. An absent `requiredCapabilities` argument behaves
exactly like an empty list everywhere it is read, so requirement lists
are plain lists. -/
structure CapRequirement where
  category : Option CapCategory
  skill : Option String
  languages : Option (List String)
deriving DecidableEq, Repr

/-- Load-balancing strategy tags (`LoadBalancingStrategy.type`). -/
inductive Strategy where
  | roundRobin
  | leastLoaded
  | capabilityBased
  | performanceBased
  | hybrid
deriving DecidableEq, Repr

/-- The orchestrator state: the `agents` and `assignments` maps, the
round-robin queue and the configured strategy. -/
structure Orchestrator where
  agents : List Agent
  assignments : List TaskAssignment
  agentQueue : List String
  strategy : Strategy
deriving DecidableEq, Repr

/-- Errors thrown by the orchestrator's operations. -/
inductive OrchError where
  | noAgentAvailable
  | taskNotFound
  | agentNotFound
deriving DecidableEq, Repr

/-- Models `this.agents.get(id)`. -/
def getAgent (st : Orchestrator) (aid : String) : Option Agent :=
  st.agents.find? (fun a => a.id == aid)

/-- Models `Map.set` on the agents list: replace the first record with the
same id in place, append when the id is new. -/
def setAgentList (l : List Agent) (a : Agent) : List Agent :=
  match l with
  | [] => [a]
  | b :: rest => if b.id == a.id then a :: rest else b :: setAgentList rest a

/-- Models `this.assignments.get(taskId)`. -/
def getAssignment (st : Orchestrator) (tid : String) : Option TaskAssignment :=
  st.assignments.find? (fun x => x.taskId == tid)

/-- Models `Map.set` on the assignments list. -/
def setAssignmentList (l : List TaskAssignment) (x : TaskAssignment) : List TaskAssignment :=
  match l with
  | [] => [x]
  | y :: rest => if y.taskId == x.taskId then x :: rest else y :: setAssignmentList rest x

/-- Store an updated agent record. -/
def putAgent (st : Orchestrator) (a : Agent) : Orchestrator :=
  { st with agents := setAgentList st.agents a }

/-- Store an updated assignment record. -/
def putAssignment (st : Orchestrator) (x : TaskAssignment) : Orchestrator :=
  { st with assignments := setAssignmentList st.assignments x }

/-- Models `(agent.activeTasks.length / agent.maxConcurrentTasks) * 100`, the
load formula the source recomputes after every active-task change. -/
def loadOf (tasks : List String) (maxTasks : Nat) : ℚ :=
  ((tasks.length : ℚ) / (maxTasks : ℚ)) * 100

/-- Models `AgentOrchestrator.registerAgent`: upsert the record and push the
id onto the round-robin queue (the push is unconditional in the
source). -/
def registerAgent (st : Orchestrator) (a : Agent) : Orchestrator :=
  { st with agents := setAgentList st.agents a, agentQueue := st.agentQueue ++ [a.id] }

/-- Does a capability satisfy one requirement? Mirrors the predicate
inside `selectByCapability`: specified category and skill must be
equal, and when the requirement lists languages, at least one must
occur in the capability's languages. -/
def capMatches (req : CapRequirement) (cap : AgentCapability) : Bool :=
  (match req.category with
   | some c => cap.category == c
   | none => true) &&
  (match req.skill with
   | some sk => cap.skill == sk
   | none => true) &&
  (match req.languages with
   | some ls => ls.any (fun l =>
       match cap.languages with
       | some cl => cl.contains l
       | none => false)
   | none => true)

/-- The raw capability score of `selectByCapability`: for every
requirement, the proficiency of the first matching capability (0 when
none matches). -/
def capScoreRaw (a : Agent) (required : List CapRequirement) : Nat :=
  required.foldl (fun acc req =>
    match a.capabilities.find? (fun cap => capMatches req cap) with
    | some c => acc + c.proficiency
    | none => acc) 0

/-- The contribution of one requirement to the raw capability score:
the proficiency of the first matching capability, 0 when none
matches. -/
def capContrib (a : Agent) (r : CapRequirement) : Nat :=
  match a.capabilities.find? (fun cap => capMatches r cap) with
  | some c => c.proficiency
  | none => 0

/-- The capability score after the load factor. -/
def capScore (a : Agent) (required : List CapRequirement) : ℚ :=
  (capScoreRaw a required : ℚ) * (1 - a.currentLoad / 100)

/-- The performance score of `selectByPerformance`: success rate, plus
a tenth of each matching specialty rate, plus a speed bonus, scaled by
the load factor. -/
def perfScore (a : Agent) (required : List CapRequirement) : ℚ :=
  let base := a.performance.successRate +
    required.foldl (fun acc req =>
      match req.skill with
      | some sk =>
          match a.performance.specialties.find? (fun p => p.1 == sk) with
          | some p => acc + p.2 / 10
          | none => acc
      | none => acc) 0 +
    (100 - a.performance.averageCompletionTime) / 10
  base * (1 - a.currentLoad / 100)

/-- Stable insertion into a list sorted by descending score: the new
element goes after every earlier element with a score at least as
large, which is the order `Array.sort((a, b) => b.score - a.score)`
produces (JS sorts are stable). -/
def insertDesc (x : Agent × ℚ) : List (Agent × ℚ) → List (Agent × ℚ)
  | [] => [x]
  | y :: ys => if x.2 < y.2 then y :: insertDesc x ys else x :: y :: ys

/-- Stable descending sort by score. -/
def sortDesc (l : List (Agent × ℚ)) : List (Agent × ℚ) :=
  l.foldr insertDesc []

/-- Models `AgentOrchestrator.selectLeastLoaded`: `reduce` keeping the first
strictly smaller load, i.e. the first minimum. The source calls it
only with a non-empty candidate list; the empty case is `none`. -/
def leastLoaded (agents : List Agent) : Option Agent :=
  match agents with
  | [] => none
  | a :: rest => some (rest.foldl (fun least ag =>
      if ag.currentLoad < least.currentLoad then ag else least) a)

/-- Models `AgentOrchestrator.selectByCapability`: without requirements fall
back to least-loaded, otherwise sort the scored candidates descending
and take the head. -/
def selectByCapability (agents : List Agent) (required : List CapRequirement) : Option Agent :=
  if required.isEmpty then leastLoaded agents
  else
    match sortDesc (agents.map (fun a => (a, capScore a required))) with
    | [] => none
    | p :: _ => some p.1

/-- Models `AgentOrchestrator.selectByPerformance`. -/
def selectByPerformance (agents : List Agent) (required : List CapRequirement) : Option Agent :=
  match sortDesc (agents.map (fun a => (a, perfScore a required))) with
  | [] => none
  | p :: _ => some p.1

/-- Models `AgentOrchestrator.selectHybrid`: agree or pick the less loaded of
the two winners (strictly-less prefers the capability winner). -/
def selectHybrid (agents : List Agent) (required : List CapRequirement) : Option Agent :=
  match selectByCapability agents required, selectByPerformance agents required with
  | some ca, some pa =>
      if ca.id == pa.id then some ca
      else if ca.currentLoad < pa.currentLoad then some ca else some pa
  | some ca, none => some ca
  | none, x => x

/-- The rotation loop of `selectRoundRobin`, fuelled by the queue
length: shift the front id, push it to the back, and stop at the first
id present in the candidate list. When the queue holds no candidate at
all the source's `while` loop never terminates; the fuelled model
returns `none` after one full rotation instead (that state is the only
behavioural difference, and it is one no theorem below relies on). -/
def rrLoop (agents : List Agent) : Nat → List String → Option Agent × List String
  | 0, q => (none, q)
  | fuel + 1, q =>
      match q with
      | [] => (none, [])
      | aid :: rest =>
          let q' := rest ++ [aid]
          match agents.find? (fun a => a.id == aid) with
          | some a => (some a, q')
          | none => rrLoop agents fuel q'

/-- Models `AgentOrchestrator.selectRoundRobin` (with the empty-queue
fallback `agents[0]` of the source's final line). -/
def selectRoundRobin (agents : List Agent) (q : List String) : Option Agent × List String :=
  match rrLoop agents q.length q with
  | (some a, q') => (some a, q')
  | (none, q') => (agents.head?, q')

/-- The strategy dispatch of `selectAgent` on the already filtered
candidate list. -/
def selectByStrategy (st : Orchestrator) (candidates : List Agent)
    (required : List CapRequirement) : Option Agent × Orchestrator :=
  match st.strategy with
  | .roundRobin =>
      let r := selectRoundRobin candidates st.agentQueue
      (r.1, { st with agentQueue := r.2 })
  | .leastLoaded => (leastLoaded candidates, st)
  | .capabilityBased => (selectByCapability candidates required, st)
  | .performanceBased => (selectByPerformance candidates required, st)
  | .hybrid => (selectHybrid candidates required, st)

/-- Models `AgentOrchestrator.selectAgent`: preferred agent first, then the
availability/load filter, then the configured strategy. -/
def selectAgent (st : Orchestrator) (required : List CapRequirement)
    (preferred : Option String) : Option Agent × Orchestrator :=
  let viaStrategy : Option Agent × Orchestrator :=
    let candidates := st.agents.filter (fun a =>
      a.status == .available && decide (a.currentLoad < 100))
    if candidates.isEmpty then (none, st)
    else selectByStrategy st candidates required
  match preferred with
  | some pid =>
      match getAgent st pid with
      | some a =>
          if a.status == .available && decide (a.currentLoad < 100) then (some a, st)
          else viaStrategy
      | none => viaStrategy
  | none => viaStrategy

/-- The caller-supplied arguments of `assignTask`. -/
structure AssignParams where
  taskId : String
  required : List CapRequirement
  priority : TaskPriority
  workflowId : Option String
  stepId : Option String
  preferred : Option String
deriving DecidableEq, Repr

/-- Models `AgentOrchestrator.assignTask`: pick an agent, create the
assignment in `assigned` state, push the task onto the agent's active
list and recompute its load. -/
def assignTask (st : Orchestrator) (p : AssignParams) (now : Nat) :
    Option OrchError × Orchestrator :=
  let sel := selectAgent st p.required p.preferred
  match sel.1 with
  | none => (some .noAgentAvailable, sel.2)
  | some agent =>
      let asg : TaskAssignment :=
        { taskId := p.taskId, agentId := agent.id, workflowId := p.workflowId,
          stepId := p.stepId, assignedAt := now, startedAt := none,
          completedAt := none, status := .assigned, priority := p.priority,
          actualDuration := none, retryCount := 0, error := none }
      let tasks' := agent.activeTasks ++ [p.taskId]
      let agent' : Agent :=
        { agent with activeTasks := tasks',
                     currentLoad := loadOf tasks' agent.maxConcurrentTasks }
      (none, putAssignment (putAgent sel.2 agent') asg)

/-- Models `AgentOrchestrator.startTask`. -/
def startTask (st : Orchestrator) (tid : String) (now : Nat) :
    Option OrchError × Orchestrator :=
  match getAssignment st tid with
  | none => (some .taskNotFound, st)
  | some asg =>
      (none, putAssignment st { asg with status := .inProgress, startedAt := some now })

/-- Models `AgentOrchestrator.completeTask`: complete the assignment, remove
the task from the agent, recompute the load, bump `tasksCompleted` and
fold the actual duration into the rolling average (skipped when the
duration is absent or zero, as the source tests JS truthiness). -/
def completeTask (st : Orchestrator) (tid : String) (now : Nat) :
    Option OrchError × Orchestrator :=
  match getAssignment st tid with
  | none => (some .taskNotFound, st)
  | some asg =>
      match getAgent st asg.agentId with
      | none => (some .agentNotFound, st)
      | some agent =>
          let asg1 : TaskAssignment := { asg with status := .completed, completedAt := some now }
          let asg2 : TaskAssignment :=
            match asg1.startedAt with
            | some s0 => { asg1 with actualDuration := some (((now : ℚ) - (s0 : ℚ)) / 60000) }
            | none => asg1
          let tasks' := agent.activeTasks.filter (fun t => t != tid)
          let n := agent.performance.tasksCompleted + 1
          let perf1 : Performance := { agent.performance with tasksCompleted := n }
          let perf2 : Performance :=
            match asg2.actualDuration with
            | some d =>
                if d == 0 then perf1
                else { perf1 with averageCompletionTime :=
                  (perf1.averageCompletionTime * ((n : ℚ) - 1) + d) / (n : ℚ) }
            | none => perf1
          let agent' : Agent :=
            { agent with activeTasks := tasks',
                         currentLoad := loadOf tasks' agent.maxConcurrentTasks,
                         performance := perf2 }
          (none, putAssignment (putAgent st agent') asg2)

/-- The candidate filter of `reassignTask`: available agents below
full load, excluding the agent that held the task. -/
def eligibleForReassign (st : Orchestrator) (prevId : String) : List Agent :=
  st.agents.filter (fun a =>
    a.id != prevId && a.status == .available && decide (a.currentLoad < 100))

/-- Models `AgentOrchestrator.reassignTask`: move the task to the least
loaded other agent, or mark the assignment failed when none exists. -/
def reassignTask (st : Orchestrator) (tid : String) : Orchestrator :=
  match getAssignment st tid with
  | none => st
  | some asg =>
      let avail := eligibleForReassign st asg.agentId
      match leastLoaded avail with
      | none => putAssignment st { asg with status := .failed }
      | some newAgent =>
          let asg1 : TaskAssignment := { asg with agentId := newAgent.id, status := .reassigned }
          let tasks' := newAgent.activeTasks ++ [tid]
          let newAgent' : Agent :=
            { newAgent with activeTasks := tasks',
                            currentLoad := loadOf tasks' newAgent.maxConcurrentTasks }
          putAgent (putAssignment st asg1) newAgent'

/-- Models `AgentOrchestrator.reassignAgentTasks`: reassign every task of the
agent (iterating over a snapshot of its active list, as the source
copies the array first), then clear its active list and zero its
load. -/
def reassignAgentTasks (st : Orchestrator) (aid : String) : Orchestrator :=
  match getAgent st aid with
  | none => st
  | some agent =>
      let st1 := agent.activeTasks.foldl (fun s t => reassignTask s t) st
      match getAgent st1 aid with
      | some a2 => putAgent st1 { a2 with activeTasks := [], currentLoad := 0 }
      | none => st1

/-- Models `AgentOrchestrator.updateAgentStatus`: set the status and, for
`offline`/`error`, reassign all of the agent's tasks. -/
def updateAgentStatus (st : Orchestrator) (aid : String) (status : AgentStatus) : Orchestrator :=
  match getAgent st aid with
  | none => st
  | some a =>
      let st1 := putAgent st { a with status := status }
      if status == .offline || status == .error then reassignAgentTasks st1 aid
      else st1

/-- Models `AgentOrchestrator.failTask`: decay the agent's success rate, drop
the task from its active list, bump the retry count, then either
reassign (`retry` and fewer than 3 recorded attempts — the count is
incremented before the comparison) or mark the assignment failed. -/
def failTask (st : Orchestrator) (tid : String) (err : String) (retry : Bool) (now : Nat) :
    Option OrchError × Orchestrator :=
  match getAssignment st tid with
  | none => (some .taskNotFound, st)
  | some asg =>
      let st1 :=
        match getAgent st asg.agentId with
        | some agent =>
            let n := agent.performance.tasksCompleted
            let perf1 : Performance := { agent.performance with
              successRate := agent.performance.successRate * (n : ℚ) / ((n : ℚ) + 1) }
            let tasks' := agent.activeTasks.filter (fun t => t != tid)
            putAgent st { agent with
              performance := perf1,
              activeTasks := tasks',
              currentLoad := loadOf tasks' agent.maxConcurrentTasks }
        | none => st
      let asg1 : TaskAssignment := { asg with error := some err, retryCount := asg.retryCount + 1 }
      let st2 := putAssignment st1 asg1
      if retry && decide (asg1.retryCount < 3) then
        (none, reassignTask st2 tid)
      else
        (none, putAssignment st2 { asg1 with status := .failed, completedAt := some now })

/-- The `claude-3-opus` default agent of `initializeDefaultAgents`. -/
def claudeAgent : Agent :=
  { id := "claude-3-opus", status := .available,
    capabilities :=
      [ { category := .analysis, skill := "system_design", proficiency := 5, languages := none },
        { category := .coding, skill := "architecture", proficiency := 5, languages := none },
        { category := .writing, skill := "documentation", proficiency := 5, languages := none },
        { category := .review, skill := "code_review", proficiency := 4, languages := none },
        { category := .coding, skill := "implementation", proficiency := 4,
          languages := some ["typescript", "python", "rust", "go"] } ],
    currentLoad := 0, maxConcurrentTasks := 3, activeTasks := [],
    performance := { tasksCompleted := 0, averageCompletionTime := 30, successRate := 95,
                     specialties := [("system_design", 98), ("documentation", 96), ("code_review", 94)] } }

/-- The `gpt-4-turbo` default agent. -/
def gptAgent : Agent :=
  { id := "gpt-4-turbo", status := .available,
    capabilities :=
      [ { category := .coding, skill := "implementation", proficiency := 4, languages := none },
        { category := .research, skill := "web_search", proficiency := 5, languages := none },
        { category := .analysis, skill := "data_analysis", proficiency := 4, languages := none },
        { category := .testing, skill := "test_generation", proficiency := 4, languages := none },
        { category := .coding, skill := "debugging", proficiency := 4,
          languages := some ["javascript", "python", "java", "c++"] } ],
    currentLoad := 0, maxConcurrentTasks := 5, activeTasks := [],
    performance := { tasksCompleted := 0, averageCompletionTime := 25, successRate := 92,
                     specialties := [("implementation", 93), ("debugging", 91), ("test_generation", 90)] } }

/-- The `gemini-pro` default agent. -/
def geminiAgent : Agent :=
  { id := "gemini-pro", status := .available,
    capabilities :=
      [ { category := .coding, skill := "refactoring", proficiency := 4, languages := none },
        { category := .analysis, skill := "performance_optimization", proficiency := 4, languages := none },
        { category := .research, skill := "quick_answers", proficiency := 5, languages := none },
        { category := .coding, skill := "script_automation", proficiency := 4,
          languages := some ["python", "bash", "javascript"] } ],
    currentLoad := 0, maxConcurrentTasks := 10, activeTasks := [],
    performance := { tasksCompleted := 0, averageCompletionTime := 15, successRate := 90,
                     specialties := [("refactoring", 92), ("performance_optimization", 89), ("script_automation", 91)] } }

/-- The orchestrator as built by the constructor: the three default
agents registered in order on an empty state. -/
def mkOrchestrator (strat : Strategy) : Orchestrator :=
  registerAgent (registerAgent (registerAgent
    { agents := [], assignments := [], agentQueue := [], strategy := strat }
    claudeAgent) gptAgent) geminiAgent

/-!
Part 3: derived predicates and concrete scenario states used by the
theorems below.
-/

/-- The dependency-satisfaction condition of spec §8 as a computable
check: every `ready` step has all its dependencies `completed`. -/
def readyDepInvariant (w : Workflow) : Bool :=
  w.steps.all (fun s => s.status != .ready || checkDependenciesL w.steps s)

/-- Per-agent load consistency: `currentLoad` equals the recomputed
`(activeTasks.length / maxConcurrentTasks) * 100`. -/
def loadConsistent (a : Agent) : Prop :=
  a.currentLoad = loadOf a.activeTasks a.maxConcurrentTasks

instance (a : Agent) : Decidable (loadConsistent a) := by
  unfold loadConsistent; infer_instance

/-- A well-formed agent record: a positive task capacity (the data
model requires `maxConcurrentTasks: int > 0`) and a consistent load. -/
def wfAgent (a : Agent) : Prop :=
  0 < a.maxConcurrentTasks ∧ loadConsistent a

instance (a : Agent) : Decidable (wfAgent a) := by
  unfold wfAgent; infer_instance

/-- Statewide load consistency over the registry. -/
def orchConsistent (st : Orchestrator) : Prop :=
  ∀ a ∈ st.agents, wfAgent a

instance (st : Orchestrator) : Decidable (orchConsistent st) := by
  unfold orchConsistent; infer_instance

/-- A custom step with no dependencies. -/
def exStepA : Step :=
  { id := "a", name := "A", type := .ai_task, dependencies := [],
    status := .pending, startedAt := none, completedAt := none }

/-- A custom step depending (by name) on `exStepA`. -/
def exStepB : Step :=
  { id := "b", name := "B", type := .ai_task, dependencies := ["A"],
    status := .pending, startedAt := none, completedAt := none }

/-- A two-step custom workflow: `B` depends on `A`. -/
def exWf : Workflow := createWorkflowCustom [exStepA, exStepB] 0

/-- Models `exWf` after `transition(start)`. -/
def exWfStarted : Workflow := (transitionW exWf .start 1).2

/-- The public-operation chain create → start → executeStep(a) →
completeStep(a) → fail, used to probe the readiness invariant. -/
def exWfFailed : Workflow :=
  (transitionW (completeStepW (executeStepW exWfStarted "a" 2).2 "a" 3).2 .fail 4).2

/-- Fresh ids for the six steps of the feature-development template. -/
def ftIds : List String := ["s0", "s1", "s2", "s3", "s4", "s5"]

/-- A workflow freshly created from the `feature-development`
template. -/
def ftWf : Workflow := createWorkflowFromTemplate featureDevelopmentSteps ftIds 0

/-- A one-step custom workflow. -/
def oneWf : Workflow := createWorkflowCustom [exStepA] 0

/-- Models `oneWf` after `transition(start)` (which advances it straight to
`running`). -/
def oneWfStarted : Workflow := (transitionW oneWf .start 1).2

/-- Models `oneWfStarted` after completing its only step (the engine then
auto-triggers `review`). -/
def oneWfDone : Workflow := (completeStepW oneWfStarted "a" 2).2

/-- First completion of step `a` in the started two-step workflow. -/
def exComplete1 : Option EngineError × Workflow := completeStepW exWfStarted "a" 2

/-- Second (repeated) completion of the same step. -/
def exComplete2 : Option EngineError × Workflow := completeStepW exComplete1.2 "a" 3

/-- Third (repeated) completion of the same step. -/
def exComplete3 : Option EngineError × Workflow := completeStepW exComplete2.2 "a" 4

/-- A workflow already in the terminal `completed` state (no
transition row matches `(completed, start)`). -/
def exWfCompletedState : Workflow := { oneWf with state := .completed }

/-- A draft workflow whose single step has an empty name, so the
`draft → ready` guard `validateWorkflow` fails. -/
def exWfEmptyName : Workflow :=
  createWorkflowCustom [{ exStepA with name := "" }] 0

/-- A plain available agent with no capabilities. -/
def oAgentA : Agent :=
  { id := "oa", status := .available, capabilities := [], currentLoad := 0,
    maxConcurrentTasks := 2, activeTasks := [],
    performance := { tasksCompleted := 0, averageCompletionTime := 10,
                     successRate := 100, specialties := [] } }

/-- A second plain available agent. -/
def oAgentB : Agent :=
  { oAgentA with id := "ob" }

/-- A two-agent orchestrator with the least-loaded strategy. -/
def oSt : Orchestrator :=
  { agents := [oAgentA, oAgentB], assignments := [], agentQueue := ["oa", "ob"],
    strategy := .leastLoaded }

/-- Assignment parameters for task `t` with no requirements. -/
def oParams : AssignParams :=
  { taskId := "t", required := [], priority := .medium, workflowId := none,
    stepId := none, preferred := none }

/-- Task `t` assigned (to `oa`). -/
def c5s1 : Orchestrator := (assignTask oSt oParams 0).2

/-- After one failure with retry: reassigned, retryCount 1. -/
def c5s2 : Orchestrator := (failTask c5s1 "t" "e1" true 1).2

/-- After a second failure with retry: reassigned again, retryCount 2.
This is the state before the third `failTask` call. -/
def c5s3 : Orchestrator := (failTask c5s2 "t" "e2" true 2).2

/-- The agent whose failure drives the C6 counterexample: two active
tasks, full but consistent load. -/
def c6AgentA : Agent :=
  { id := "ca", status := .available, capabilities := [], currentLoad := 100,
    maxConcurrentTasks := 2, activeTasks := ["t1", "t2"],
    performance := { tasksCompleted := 0, averageCompletionTime := 10,
                     successRate := 100, specialties := [] } }

/-- An available agent with capacity for exactly one task. -/
def c6AgentB : Agent :=
  { id := "cb", status := .available, capabilities := [], currentLoad := 0,
    maxConcurrentTasks := 1, activeTasks := [],
    performance := { tasksCompleted := 0, averageCompletionTime := 10,
                     successRate := 100, specialties := [] } }

/-- The assignment of `t1` to `ca`. -/
def c6Asg1 : TaskAssignment :=
  { taskId := "t1", agentId := "ca", workflowId := none, stepId := none,
    assignedAt := 0, startedAt := none, completedAt := none,
    status := .assigned, priority := .medium, actualDuration := none,
    retryCount := 0, error := none }

/-- The assignment of `t2` to `ca`. -/
def c6Asg2 : TaskAssignment := { c6Asg1 with taskId := "t2" }

/-- The C6 counterexample state. -/
def c6St : Orchestrator :=
  { agents := [c6AgentA, c6AgentB], assignments := [c6Asg1, c6Asg2],
    agentQueue := ["ca", "cb"], strategy := .leastLoaded }

/-- An available agent with proficiency 5 in the skill `debugging`. -/
def dbgAgent5 : Agent :=
  { id := "d5", status := .available,
    capabilities := [{ category := .coding, skill := "debugging", proficiency := 5, languages := none }],
    currentLoad := 0, maxConcurrentTasks := 3, activeTasks := [],
    performance := { tasksCompleted := 0, averageCompletionTime := 10,
                     successRate := 100, specialties := [] } }

/-- An available agent with proficiency 2 in the same skill. -/
def dbgAgent2 : Agent :=
  { dbgAgent5 with
    id := "d2",
    capabilities := [{ category := .coding, skill := "debugging", proficiency := 2, languages := none }] }

/-- The requirement `{skill: "debugging"}`. -/
def dbgReq : CapRequirement :=
  { category := none, skill := some "debugging", languages := none }

/-- A capability-based orchestrator holding the two debugging agents,
weaker one first. -/
def dbgSt : Orchestrator :=
  { agents := [dbgAgent2, dbgAgent5], assignments := [], agentQueue := [],
    strategy := .capabilityBased }

/-- Assignment parameters requiring the debugging skill. -/
def dbgParams : AssignParams :=
  { taskId := "t", required := [dbgReq], priority := .medium, workflowId := none,
    stepId := none, preferred := none }

/-- An agent record whose stored `currentLoad` (50) disagrees with its
empty active-task list. `registerAgent` stores it verbatim. -/
def badLoadAgent : Agent :=
  { id := "x", status := .available, capabilities := [], currentLoad := 50,
    maxConcurrentTasks := 2, activeTasks := [],
    performance := { tasksCompleted := 0, averageCompletionTime := 10,
                     successRate := 100, specialties := [] } }

/-- The record step `a` carries after being completed at time 2. -/
def exStepADone : Step :=
  { id := "a", name := "A", type := .ai_task, dependencies := [],
    status := .completed, startedAt := none, completedAt := some 2 }

/-- The assignment of task `t` to agent `oa` with no retries yet. -/
def c5wAsg : TaskAssignment :=
  { taskId := "t", agentId := "oa", workflowId := none, stepId := none,
    assignedAt := 0, startedAt := some 0, completedAt := none,
    status := .inProgress, priority := .medium, actualDuration := none,
    retryCount := 0, error := none }

/-- The agent `oAgentA` while holding task `t` (load 50, consistent). -/
def oAgentABusy : Agent :=
  { oAgentA with activeTasks := ["t"], currentLoad := 50 }

/-- A state with task `t` in progress on `oa` and `ob` free. -/
def c5wSt : Orchestrator :=
  { agents := [oAgentABusy, oAgentB], assignments := [c5wAsg], agentQueue := [],
    strategy := .leastLoaded }

/-!
Part 4: theorems. Helper lemmas come first, then one theorem per
claim (with its witness or counterexample).
-/

theorem applyTransitions_all_false (now : Nat) (rows : List TransRow) (w : Workflow)
    (h : ∀ t ∈ rows, condHolds t w = false) :
    applyTransitions now rows w = (some .conditionsNotMet, w) := by
  induction rows with
  | nil => rfl
  | cons t rest ih =>
      have ht : condHolds t w = false := h t (by simp)
      simp only [applyTransitions, ht, Bool.false_eq_true, if_false]
      exact ih (fun t' ht' => h t' (List.mem_cons_of_mem t ht'))

theorem applyTransitions_action_none (now : Nat) (rows : List TransRow) (w : Workflow)
    (h : ∀ t ∈ rows, t.action = none) (e : Option EngineError) (w' : Workflow)
    (hr : applyTransitions now rows w = (e, w')) :
    w'.steps = w.steps ∧ w'.metrics = w.metrics ∧ w'.currentStepId = w.currentStepId := by
  induction rows with
  | nil =>
      simp only [applyTransitions, Prod.mk.injEq] at hr
      rw [← hr.2]
      exact ⟨rfl, rfl, rfl⟩
  | cons t rest ih =>
      by_cases hc : condHolds t w = true
      · have ha : t.action = none := h t (by simp)
        simp only [applyTransitions, hc, if_true, ha, Prod.mk.injEq] at hr
        rw [← hr.2]
        exact ⟨rfl, rfl, rfl⟩
      · simp only [applyTransitions, hc, if_false] at hr
        exact ih (fun t' ht' => h t' (List.mem_cons_of_mem t ht')) hr

theorem transTable_review_action (t : TransRow) (ht : t ∈ transitionTable)
    (htr : t.trig = .review) : t.action = none := by
  fin_cases ht <;> simp_all

theorem transitionW_review_preserves (w : Workflow) (now : Nat) (e : Option EngineError)
    (w' : Workflow) (h : transitionW w .review now = (e, w')) :
    w'.steps = w.steps ∧ w'.metrics = w.metrics ∧ w'.currentStepId = w.currentStepId := by
  unfold transitionW at h
  by_cases hemp :
      (transitionTable.filter (fun t => t.src == w.state && t.trig == Trigger.review)).isEmpty
  · simp only [hemp, if_true, Prod.mk.injEq] at h
    rw [← h.2]
    exact ⟨rfl, rfl, rfl⟩
  · simp only [hemp, Bool.false_eq_true, if_false] at h
    refine applyTransitions_action_none now _ w (fun t htm => ?_) e w' h
    have hmem := List.mem_filter.mp htm
    have htr : t.trig = Trigger.review := by
      have hp := hmem.2
      simp only [Bool.and_eq_true, beq_iff_eq] at hp
      exact hp.2
    exact transTable_review_action t hmem.1 htr

/-- Claim C3: `transition` fails with `InvalidTransition` when no
table row matches the workflow's current state and the trigger, and
with the guard-not-met error when matching rows exist but every guard
rejects; in both cases the returned workflow is the input unchanged
(state and `updatedAt` included). -/
theorem c3_transition_failure_cases (w : Workflow) (trig : Trigger) (now : Nat) :
    ((transitionTable.filter (fun t => t.src == w.state && t.trig == trig)).isEmpty = true →
      transitionW w trig now = (some EngineError.invalidTransition, w)) ∧
    ((transitionTable.filter (fun t => t.src == w.state && t.trig == trig)).isEmpty = false →
      (∀ t ∈ transitionTable.filter (fun t => t.src == w.state && t.trig == trig),
        condHolds t w = false) →
      transitionW w trig now = (some EngineError.conditionsNotMet, w)) := by
  constructor
  · intro h
    unfold transitionW
    simp only [h, if_true]
  · intro hne hall
    unfold transitionW
    simp only [hne, Bool.false_eq_true, if_false]
    exact applyTransitions_all_false now _ w hall

/-- Witness for C3: a `completed` workflow rejects `start` with
`InvalidTransition`; a draft workflow with an empty step name rejects
`start` with the guard error; both are returned unchanged. -/
theorem c3_transition_failure_cases_witness :
    transitionW exWfCompletedState .start 5 = (some EngineError.invalidTransition, exWfCompletedState) ∧
    transitionW exWfEmptyName .start 6 = (some EngineError.conditionsNotMet, exWfEmptyName) :=
  ⟨(c3_transition_failure_cases exWfCompletedState .start 5).1 (by decide),
   (c3_transition_failure_cases exWfEmptyName .start 6).2 (by decide) (by decide)⟩

/-- Claim C8: after every successful `completeStep` on a workflow with
at least one step, `progressPercentage` equals
`round(stepsCompleted / stepsTotal * 100)` recomputed from the
resulting metrics. -/
theorem c8_progress_formula (w : Workflow) (sid : String) (now : Nat) (w' : Workflow)
    (htotal : 1 ≤ w.metrics.stepsTotal)
    (h : completeStepW w sid now = (none, w')) :
    w'.metrics.progressPercentage = jsRoundPct w'.metrics.stepsCompleted w'.metrics.stepsTotal := by
  unfold completeStepW at h
  cases hf : findStep w sid with
  | none => rw [hf] at h; simp at h
  | some s =>
      rw [hf] at h
      simp only [] at h
      split at h
      · have hpres := transitionW_review_preserves _ now none w' h
        rw [hpres.2.1]
        rfl
      · simp only [Prod.mk.injEq, true_and] at h
        rw [← h]
        rfl

/-- Witness for C8: completing step `a` of the started two-step
workflow satisfies the recomputed-rounding equation. -/
theorem c8_progress_formula_witness :
    1 ≤ exWfStarted.metrics.stepsTotal ∧
    exComplete1.2.metrics.progressPercentage =
      jsRoundPct exComplete1.2.metrics.stepsCompleted exComplete1.2.metrics.stepsTotal :=
  ⟨by decide, c8_progress_formula exWfStarted "a" 2 exComplete1.2 (by decide) rfl⟩

/-- Counterexample for C2: on the workflow freshly created from the
feature-development template, the claimed two-start run (first call
leaves the state `ready`, second call succeeds) does not happen: the
first successful call already leaves `running`, and the second call
fails. -/
theorem c2_two_start_counterexample :
    ¬ ((transitionW ftWf .start 1).1 = none ∧
       (transitionW ftWf .start 1).2.state = WState.ready ∧
       (transitionW (transitionW ftWf .start 1).2 .start 2).1 = none) := by
  decide

/-- Claim C2 (amended): one `transition(start)` call on the
feature-development workflow succeeds and already takes it from
`draft` to `running` (the draft-start action promotes the first step
and advances the state immediately); a second `transition(start)`
fails with `InvalidTransition`; after the first call exactly one step
is `ready`/`running`, namely "Requirements Analysis". -/
theorem c2_two_start_scenario :
    (transitionW ftWf .start 1).1 = none ∧
    (transitionW ftWf .start 1).2.state = WState.running ∧
    ((transitionW ftWf .start 1).2.steps.filter
        (fun s => s.status == StepStatus.ready || s.status == StepStatus.running)).map
      (fun s => s.name) = ["Requirements Analysis"] ∧
    (transitionW (transitionW ftWf .start 1).2 .start 2).1 = some EngineError.invalidTransition := by
  decide

theorem updateFirstStep_find (l : List Step) (sid : String) (f : Step → Step)
    (hid : ∀ t, (f t).id = t.id) :
    (updateFirstStep l sid f).find? (fun s => s.id == sid)
      = (l.find? (fun s => s.id == sid)).map f := by
  induction l with
  | nil => rfl
  | cons s rest ih
=>
      by_cases hs : (s.id == sid) = true
      · simp [updateFirstStep, hs, List.find?, hid s]
      · simp [updateFirstStep, hs, List.find?, ih]

theorem startNextOne_find_completed (all : List Step) (sid : String) (l : List Step)
    (h : (l.find? (fun s => s.id == sid)).map (fun s => s.status) = some StepStatus.completed) :
    ((startNextOne all l).find? (fun s => s.id == sid)).map (fun s => s.status)
      = some StepStatus.completed := by
  induction l with
  | nil => simpa [startNextOne] using h
  | cons s rest ih =>
      by_cases hc : (s.status == .ready || (s.status == .pending && checkDependenciesL all s)) = true
      · by_cases hs : (s.id == sid) = true
        · simp only [List.find?_cons, hs] at h
          simp at h
          rw [h] at hc
          simp at hc
        · rw [Bool.not_eq_true] at hs
          simp only [List.find?_cons, hs] at h
          unfold startNextOne
          rw [if_pos hc]
          have hs2 : (({ s with status := StepStatus.ready } : Step).id == sid) = false := hs
          simp only [List.find?_cons, hs2]
          exact h
      · unfold startNextOne
        rw [if_neg hc]
        by_cases hs : (s.id == sid) = true
        · simp only [List.find?_cons, hs] at h ⊢
          exact h
        · rw [Bool.not_eq_true] at hs
          simp only [List.find?_cons, hs] at h ⊢
          exact ih h

/-- Counterexample for C10: `completeStep` does not succeed for every
existing step — repeating `completeStep` on the only (already
completed) step of a one-step workflow in `review` state makes the
auto-triggered `review` transition fail, and the call returns the
propagated error. -/
theorem c10_complete_step_counterexample :
    (findStep oneWfDone "a").isSome = true ∧
    (completeStepW oneWfDone "a" 3).1 = some EngineError.invalidTransition := by
  decide

/-- Claim C10 (amended): `completeStep` never checks the step's prior
status: whenever the step exists, it is marked `completed` and
`stepsCompleted` is incremented by exactly 1 and the progress
percentage recomputed from the inflated counter, whatever the prior
status was; the call succeeds whenever the updated workflow still has
an incomplete step (when all steps become complete the call succeeds
only if the auto-triggered `review` transition does). Repeating
`completeStep` on one step therefore makes `stepsCompleted` exceed
the number of distinct completed steps and drives
`progressPercentage` beyond 100 (concretely to 150 after three
completions of the same step of a two-step workflow). -/
theorem c10_complete_step_unchecked :
    (∀ (w : Workflow) (sid : String) (now : Nat) (s : Step),
      findStep w sid = some s →
        (completeStepW w sid now).2.metrics.stepsCompleted = w.metrics.stepsCompleted + 1 ∧
        (completeStepW w sid now).2.metrics.stepsTotal = w.metrics.stepsTotal ∧
        (completeStepW w sid now).2.metrics.progressPercentage
          = jsRoundPct (w.metrics.stepsCompleted + 1) w.metrics.stepsTotal ∧
        ((completeStepW w sid now).2.steps.find? (fun t => t.id == sid)).map (fun t => t.status)
          = some StepStatus.completed ∧
        (allStepsComplete (completeStepCore w sid now) = false →
          (completeStepW w sid now).1 = none)) ∧
    (exComplete2.1 = none ∧ exComplete3.1 = none ∧
     exComplete3.2.metrics.stepsCompleted = 3 ∧
     (exComplete3.2.steps.filter (fun s => s.status == StepStatus.completed)).length = 1 ∧
     exComplete3.2.metrics.progressPercentage = 150) := by
  constructor
  · intro w sid now s hf
    have hcore : ((completeStepCore w sid now).steps.find? (fun t => t.id == sid)).map
        (fun t => t.status) = some StepStatus.completed := by
      show ((updateFirstStep w.steps sid (completedUpd now)).find? (fun t => t.id == sid)).map
        (fun t => t.status) = some StepStatus.completed
      rw [updateFirstStep_find w.steps sid (completedUpd now) (fun t => rfl)]
      have : w.steps.find? (fun t => t.id == sid) = some s := hf
      rw [this]
      rfl
    have hrun : completeStepW w sid now =
        (if allStepsComplete (completeStepCore w sid now) = true then
          transitionW (completeStepCore w sid now) .review now
        else (none, startNextStep (completeStepCore w sid now))) := by
      unfold completeStepW
      rw [hf]
    rw [hrun]
    by_cases hall : allStepsComplete (completeStepCore w sid now) = true
    · rw [if_pos hall]
      have hpres := transitionW_review_preserves (completeStepCore w sid now) now
        (transitionW (completeStepCore w sid now) .review now).1
        (transitionW (completeStepCore w sid now) .review now).2 rfl
      refine ⟨?_, ?_, ?_, ?_, ?_⟩
      · rw [hpres.2.1]; rfl
      · rw [hpres.2.1]; rfl
      · rw [hpres.2.1]; rfl
      · rw [hpres.1]; exact hcore
      · intro hfalse; rw [hall] at hfalse; cases hfalse
    · rw [if_neg hall]
      refine ⟨rfl, rfl, rfl, ?_, fun _ => rfl⟩
      exact startNextOne_find_completed _ sid _ hcore
  · decide

/-- Witness for C10: completing the already-completed step `a` of the
started two-step workflow still increments the counter and leaves the
step `completed`. -/
theorem c10_complete_step_unchecked_witness :
    findStep exComplete1.2 "a" = some exStepADone ∧
    (completeStepW exComplete1.2 "a" 3).2.metrics.stepsCompleted
        = exComplete1.2.metrics.stepsCompleted + 1 ∧
    ((completeStepW exComplete1.2 "a" 3).2.steps.find? (fun t => t.id == "a")).map
        (fun t => t.status) = some StepStatus.completed := by
  have h := c10_complete_step_unchecked.1 exComplete1.2 "a" 3 exStepADone (by decide)
  exact ⟨by decide, h.1, h.2.2.2.1⟩

theorem promoLike_refl (s : Step) : promoLike s s :=
  ⟨rfl, rfl, rfl, Or.inl rfl⟩

theorem forall2_promoLike_refl (l : List Step) : List.Forall₂ promoLike l l := by
  induction l with
  | nil => exact List.Forall₂.nil
  | cons s rest ih => exact List.Forall₂.cons (promoLike_refl s) ih

theorem forall2_promoLike_append {l1 l2 l3 l4 : List Step}
    (h1 : List.Forall₂ promoLike l1 l2) (h2 : List.Forall₂ promoLike l3 l4) :
    List.Forall₂ promoLike (l1 ++ l3) (l2 ++ l4) := by
  induction h1 with
  | nil => exact h2
  | cons hab hrest ih => exact List.Forall₂.cons hab ih

theorem promoLike_completed {a b : Step} (h : promoLike a b) :
    (a.status == StepStatus.completed) = (b.status == StepStatus.completed) := by
  rcases h.2.2.2 with heq | ⟨ha, hb⟩
  · rw [heq]
  · rw [ha, hb]
    rfl

theorem depSatisfied_congr {l l' : List Step} (h : List.Forall₂ promoLike l l')
    (d : String) : depSatisfied l d = depSatisfied l' d := by
  induction h with
  | nil => rfl
  | cons hab hrest ih =>
      rename_i a b tl tl'
      unfold depSatisfied at ih ⊢
      have hpred : (a.name == d || a.id == d) = (b.name == d || b.id == d) := by
        rw [hab.1, hab.2.1]
      by_cases hp : (b.name == d || b.id == d) = true
      · rw [List.find?_cons, List.find?_cons, hpred, hp]
        exact promoLike_completed hab
      · rw [Bool.not_eq_true] at hp
        rw [List.find?_cons, List.find?_cons, hpred, hp]
        exact ih

theorem checkDeps_congr {l l' : List Step} (h : List.Forall₂ promoLike l l')
    (deps : List String) : deps.all (depSatisfied l) = deps.all (depSatisfied l') := by
  induction deps with
  | nil => rfl
  | cons d rest ih => simp [List.all_cons, depSatisfied_congr h d, ih]

theorem checkDependenciesL_congr {l l' : List Step} (h : List.Forall₂ promoLike l l')
    {s s' : Step} (hdeps : s.dependencies = s'.dependencies) :
    checkDependenciesL l s = checkDependenciesL l' s' := by
  unfold checkDependenciesL
  rw [hdeps]
  exact checkDeps_congr h s'.dependencies

theorem promoLike_promoteOne (orig : List Step) (s : Step) :
    promoLike (promoteOne orig s) s := by
  unfold promoteOne
  by_cases hc : (checkDependenciesL orig s && s.status == StepStatus.pending) = true
  · rw [if_pos hc]
    refine ⟨rfl, rfl, rfl, Or.inr ⟨rfl, ?_⟩⟩
    have := hc
    simp only [Bool.and_eq_true, beq_iff_eq] at this
    exact this.2
  · rw [if_neg hc]
    exact promoLike_refl s

theorem forall2_map_promoteOne (orig l : List Step) :
    List.Forall₂ promoLike (l.map (promoteOne orig)) l := by
  induction l with
  | nil => exact List.Forall₂.nil
  | cons s rest ih => exact List.Forall₂.cons (promoLike_promoteOne orig s) ih

theorem promoteSteps_closed (orig : List Step) :
    ∀ (rest done doneOrig : List Step),
      orig = doneOrig ++ rest → List.Forall₂ promoLike done doneOrig →
      promoteSteps done rest = done ++ rest.map (promoteOne orig) := by
  intro rest
  induction rest with
  | nil => intro done doneOrig _ _; simp [promoteSteps]
  | cons s rest ih =>
      intro done doneOrig horig hf
      have hcur : List.Forall₂ promoLike (done ++ s :: rest) (doneOrig ++ s :: rest) :=
        forall2_promoLike_append hf (forall2_promoLike_refl (s :: rest))
      have hcongr : checkDependenciesL (done ++ s :: rest) s = checkDependenciesL orig s := by
        rw [horig]
        exact checkDependenciesL_congr hcur rfl
      unfold promoteSteps
      rw [hcongr]
      by_cases hcond : (checkDependenciesL orig s && s.status == StepStatus.pending) = true
      · rw [if_pos hcond]
        have hpend : s.status = StepStatus.pending := by
          have := hcond
          simp only [Bool.and_eq_true, beq_iff_eq] at this
          exact this.2
        have hlike : promoLike ({ s with status := StepStatus.ready }) s :=
          ⟨rfl, rfl, rfl, Or.inr ⟨rfl, hpend⟩⟩
        have hrec := ih (done ++ [{ s with status := StepStatus.ready }]) (doneOrig ++ [s])
          (by rw [horig, List.append_assoc]; rfl)
          (forall2_promoLike_append hf (List.Forall₂.cons hlike List.Forall₂.nil))
        rw [hrec, List.append_assoc]
        have hone : promoteOne orig s = { s with status := StepStatus.ready } := by
          unfold promoteOne
          rw [if_pos hcond]
        rw [List.map_cons, hone]
        rfl
      · rw [if_neg hcond]
        have hrec := ih (done ++ [s]) (doneOrig ++ [s])
          (by rw [horig, List.append_assoc]; rfl)
          (forall2_promoLike_append hf (List.Forall₂.cons (promoLike_refl s) List.Forall₂.nil))
        rw [hrec, List.append_assoc]
        have hone : promoteOne orig s = s := by
          unfold promoteOne
          rw [if_neg hcond]
        rw [List.map_cons, hone]
        rfl

theorem promoteSteps_eq_map (l : List Step) :
    promoteSteps [] l = l.map (promoteOne l) := by
  have h := promoteSteps_closed l l [] [] rfl List.Forall₂.nil
  exact h.trans (List.nil_append _)

theorem map_promoteOne_ready_at (l : List Step) (i : Nat) (t : Step)
    (h : (l.map (promoteOne l))[i]? = some t) (ht : t.status = .ready) :
    ∃ s, l[i]? = some s ∧
      (s.status = .ready ∨ (s.status = .pending ∧ checkDependenciesL l s = true)) := by
  rw [List.getElem?_map] at h
  cases hg : l[i]? with
  | none => rw [hg] at h; cases h
  | some s =>
      rw [hg] at h
      simp only [Option.map_some'] at h
      refine ⟨s, rfl, ?_⟩
      have hts : promoteOne l s = t := by
        injection h
      unfold promoteOne at hts
      by_cases hc : (checkDependenciesL l s && s.status == StepStatus.pending) = true
      · right
        have := hc
        simp only [Bool.and_eq_true, beq_iff_eq] at this
        exact ⟨this.2, this.1⟩
      · left
        rw [if_neg hc] at hts
        rw [hts]
        exact ht

theorem startNextOne_ready_at (all : List Step) :
    ∀ (l : List Step) (i : Nat) (s' : Step),
      (startNextOne all l)[i]? = some s' → s'.status = .ready →
      ∃ s, l[i]? = some s ∧
        (s.status = .ready ∨ (s.status = .pending ∧ checkDependenciesL all s = true)) := by
  intro l
  induction l with
  | nil =>
      intro i s' h _
      rw [show startNextOne all [] = [] from rfl] at h
      simp at h
  | cons s rest ih =>
      intro i s' h hr
      unfold startNextOne at h
      by_cases hc : (s.status == .ready || (s.status == .pending && checkDependenciesL all s)) = true
      · rw [if_pos hc] at h
        cases i with
        | zero =>
            refine ⟨s, by simp, ?_⟩
            simpa only [Bool.or_eq_true, Bool.and_eq_true, beq_iff_eq] using hc
        | succ j =>
            refine ⟨s', ?_, Or.inl hr⟩
            simpa using h
      · rw [if_neg hc] at h
        cases i with
        | zero =>
            have hss : s = s' := by simpa using h
            exact ⟨s, by simp, Or.inl (hss ▸ hr)⟩
        | succ j =>
            obtain ⟨t, htg, hd⟩ := ih j s' (by simpa using h) hr
            exact ⟨t, by simpa using htg, hd⟩

theorem prepare_ready_at (w : Workflow) (i : Nat) (s' : Step)
    (h : (prepareWorkflow w).steps[i]? = some s') (hr : s'.status = .ready) :
    ∃ s, w.steps[i]? = some s ∧
      (s.status = .ready ∨ (s.status = .pending ∧ checkDependenciesL w.steps s = true)) := by
  unfold prepareWorkflow at h
  rw [promoteSteps_eq_map] at h
  by_cases hany : ((w.steps.map (promoteOne w.steps)).any (fun s => s.status == .ready)) = true
  · rw [if_pos hany] at h
    have h2 : (startNextOne (w.steps.map (promoteOne w.steps))
        (w.steps.map (promoteOne w.steps)))[i]? = some s' := h
    obtain ⟨t, htg, hdisj⟩ := startNextOne_ready_at _ _ i s' h2 hr
    rcases hdisj with htr | ⟨htp, htc⟩
    · exact map_promoteOne_ready_at w.steps i t htg htr
    · rw [List.getElem?_map] at htg
      cases hg : w.steps[i]? with
      | none => rw [hg] at htg; cases htg
      | some s =>
          rw [hg] at htg
          simp only [Option.map_some'] at htg
          have hts : promoteOne w.steps s = t := by injection htg
          refine ⟨s, rfl, ?_⟩
          by_cases hcnd : (checkDependenciesL w.steps s && s.status == StepStatus.pending) = true
          · right
            have := hcnd
            simp only [Bool.and_eq_true, beq_iff_eq] at this
            exact ⟨this.2, this.1⟩
          · have hts2 : s = t := by
              have := hts
              unfold promoteOne at this
              rw [if_neg hcnd] at this
              exact this
            right
            constructor
            · rw [hts2]; exact htp
            · have hcc : checkDependenciesL (w.steps.map (promoteOne w.steps)) t
                  = checkDependenciesL w.steps s := by
                refine checkDependenciesL_congr (forall2_map_promoteOne w.steps w.steps) ?_
                rw [hts2]
              rw [← hcc]
              exact htc
  · rw [if_neg hany] at h
    exact map_promoteOne_ready_at w.steps i s' h hr

/-- Counterexample for C1: a workflow reachable through the public
operations (create custom two-step workflow, `transition(start)`,
`executeStep(a)`, `completeStep(a)`, `transition(fail)`) in which step
`b` is `ready` while its dependency `a` is `failed` — the claimed
dependency-satisfaction invariant does not hold in every reachable
state. -/
theorem c1_ready_invariant_counterexample :
    readyDepInvariant exWfFailed = false ∧
    (findStep exWfFailed "b").map (fun s => s.status) = some StepStatus.ready ∧
    (findStep exWfFailed "a").map (fun s => s.status) = some StepStatus.failed := by
  decide

/-- Claim C1 (amended): dependency checking holds at promotion time —
`executeStep` sets a step `running` only when `checkDependencies`
holds (otherwise it fails with `DependenciesNotMet` leaving the
workflow unchanged), and `startNextStep` and `prepareWorkflow` set a
step `ready` only when it was already `ready` or is `pending` with
every dependency `completed`. The global invariant of the claim is
not preserved by the later `fail` trigger (see the counterexample),
which can mark a completed dependency `failed` while its dependent
step stays `ready`. -/
theorem c1_ready_promotion_sound :
    (∀ (w : Workflow) (sid : String) (now : Nat) (w' : Workflow),
      executeStepW w sid now = (none, w') →
        ∃ s, findStep w sid = some s ∧ checkDependenciesL w.steps s = true) ∧
    (∀ (w : Workflow) (sid : String) (s : Step) (now : Nat),
      findStep w sid = some s → checkDependenciesL w.steps s = false →
        executeStepW w sid now = (some EngineError.dependenciesNotMet, w)) ∧
    (∀ (w : Workflow) (i : Nat) (s' : Step),
      (startNextStep w).steps[i]? = some s' → s'.status = .ready →
        ∃ s, w.steps[i]? = some s ∧
          (s.status = .ready ∨ (s.status = .pending ∧ checkDependenciesL w.steps s = true))) ∧
    (∀ (w : Workflow) (i : Nat) (s' : Step),
      (prepareWorkflow w).steps[i]? = some s' → s'.status = .ready →
        ∃ s, w.steps[i]? = some s ∧
          (s.status = .ready ∨ (s.status = .pending ∧ checkDependenciesL w.steps s = true))) := by
  refine ⟨?_, ?_, ?_, ?_⟩
  · intro w sid now w' h
    unfold executeStepW at h
    cases hf : findStep w sid with
    | none => rw [hf] at h; cases h
    | some s =>
        rw [hf] at h
        simp only [] at h
        by_cases hc : checkDependenciesL w.steps s = true
        · exact ⟨s, rfl, hc⟩
        · rw [if_neg hc] at h
          cases h
  · intro w sid s now hf hc
    unfold executeStepW
    rw [hf]
    simp only []
    rw [if_neg (by rw [hc]; exact Bool.false_ne_true)]
  · intro w i s' h hr
    exact startNextOne_ready_at w.steps w.steps i s' h hr
  · exact prepare_ready_at

/-- Witness for C1: executing step `b` of the fresh two-step workflow
(whose dependency `A` is not completed) fails with
`DependenciesNotMet` and leaves the workflow unchanged. -/
theorem c1_ready_promotion_sound_witness :
    findStep exWf "b" = some exStepB ∧
    checkDependenciesL exWf.steps exStepB = false ∧
    executeStepW exWf "b" 7 = (some EngineError.dependenciesNotMet, exWf) :=
  ⟨by decide, by decide,
   c1_ready_promotion_sound.2.1 exWf "b" exStepB 7 (by decide) (by decide)⟩

theorem setAgentList_idem (l : List Agent) (a : Agent) :
    setAgentList (setAgentList l a) a = setAgentList l a := by
  induction l with
  | nil => simp [setAgentList]
  | cons b rest ih =>
      by_cases hb : (b.id == a.id) = true
      · simp [setAgentList, hb]
      · simp [setAgentList, hb, ih]

/-- Counterexample for C9: registering the same agent twice does not
yield the same orchestrator state as registering it once — the
round-robin queue receives a duplicate entry. -/
theorem c9_register_idempotent_counterexample :
    registerAgent (registerAgent (mkOrchestrator .capabilityBased) oAgentA) oAgentA
      ≠ registerAgent (mkOrchestrator .capabilityBased) oAgentA := by
  decide

/-- Claim C9 (amended): `registerAgent` is an upsert by id on the
agents map — a second registration of the same agent leaves the
registry as after the first — but it appends the id to the
round-robin queue unconditionally, so registering twice duplicates
the queue entry and the overall state differs. -/
theorem c9_register_upsert (st : Orchestrator) (a : Agent) :
    (registerAgent (registerAgent st a) a).agents = (registerAgent st a).agents ∧
    (registerAgent st a).agentQueue = st.agentQueue ++ [a.id] ∧
    (registerAgent (registerAgent st a) a).agentQueue = st.agentQueue ++ [a.id, a.id] := by
  refine ⟨?_, rfl, by simp [registerAgent]⟩
  show setAgentList (setAgentList st.agents a) a = setAgentList st.agents a
  exact setAgentList_idem st.agents a

theorem mem_setAgentList {l : List Agent} {b x : Agent} (h : x ∈ setAgentList l b) :
    x = b ∨ x ∈ l := by
  induction l with
  | nil => simpa [setAgentList] using h
  | cons c rest ih =>
      by_cases hc : (c.id == b.id) = true
      · simp only [setAgentList, hc, if_true, List.mem_cons] at h
        rcases h with h | h
        · exact Or.inl h
        · exact Or.inr (List.mem_cons_of_mem c h)
      · simp only [setAgentList, hc, Bool.false_eq_true, if_false, List.mem_cons] at h
        rcases h with h | h
        · exact Or.inr (by simp [h])
        · rcases ih h with h2 | h2
          · exact Or.inl h2
          · exact Or.inr (List.mem_cons_of_mem c h2)

theorem putAgent_consistent {st : Orchestrator} {b : Agent}
    (hst : orchConsistent st) (hb : wfAgent b) : orchConsistent (putAgent st b) := by
  unfold orchConsistent
  intro x hx
  rcases mem_setAgentList hx with rfl | hx2
  · exact hb
  · exact hst x hx2

theorem orchConsistent_of_agents_eq {st st' : Orchestrator}
    (h : st'.agents = st.agents) (hst : orchConsistent st) : orchConsistent st' := by
  unfold orchConsistent at *
  rw [h]
  exact hst

theorem wfAgent_retasked (a : Agent) (ts : List String) (h : wfAgent a) :
    wfAgent { a with activeTasks := ts, currentLoad := loadOf ts a.maxConcurrentTasks } :=
  ⟨h.1, rfl⟩

theorem wfAgent_retasked_perf (a : Agent) (ts : List String) (p : Performance) (h : wfAgent a) :
    wfAgent { a with activeTasks := ts,
                     currentLoad := loadOf ts a.maxConcurrentTasks,
                     performance := p } :=
  ⟨h.1, rfl⟩

theorem wfAgent_status (a : Agent) (s : AgentStatus) (h : wfAgent a) :
    wfAgent { a with status := s } :=
  ⟨h.1, h.2⟩

theorem wfAgent_cleared (a : Agent) (h : wfAgent a) :
    wfAgent { a with activeTasks := [], currentLoad := 0 } := by
  refine ⟨h.1, ?_⟩
  show (0 : ℚ) = loadOf [] a.maxConcurrentTasks
  unfold loadOf
  simp

theorem leastLoaded_pick_mem (rest : List Agent) :
    ∀ (b : Agent),
      (rest.foldl (fun least ag => if ag.currentLoad < least.currentLoad then ag else least) b) = b ∨
      (rest.foldl (fun least ag => if ag.currentLoad < least.currentLoad then ag else least) b) ∈ rest := by
  induction rest with
  | nil => intro b; exact Or.inl rfl
  | cons c cs ih =>
      intro b
      simp only [List.foldl_cons]
      by_cases hc : (c.currentLoad < b.currentLoad)
      · rw [if_pos hc]
        rcases ih c with h | h
        · exact Or.inr (by simp [h])
        · exact Or.inr (List.mem_cons_of_mem c h)
      · rw [if_neg hc]
        rcases ih b with h | h
        · exact Or.inl h
        · exact Or.inr (List.mem_cons_of_mem c h)

theorem leastLoaded_mem {l : List Agent} {a : Agent} (h : leastLoaded l = some a) : a ∈ l := by
  cases l with
  | nil => cases h
  | cons b rest =>
      simp only [leastLoaded, Option.some.injEq] at h
      rcases leastLoaded_pick_mem rest b with h2 | h2
      · rw [← h, h2]; simp
      · rw [← h]; exact List.mem_cons_of_mem b h2

theorem insertDesc_mem {x y : Agent × ℚ} {l : List (Agent × ℚ)} (h : y ∈ insertDesc x l) :
    y = x ∨ y ∈ l := by
  induction l with
  | nil => simpa [insertDesc] using h
  | cons z zs ih =>
      unfold insertDesc at h
      by_cases hz : (x.2 < z.2)
      · rw [if_pos hz] at h
        rcases List.mem_cons.mp h with h2 | h2
        · exact Or.inr (by simp [h2])
        · rcases ih h2 with h3 | h3
          · exact Or.inl h3
          · exact Or.inr (List.mem_cons_of_mem z h3)
      · rw [if_neg hz] at h
        rcases List.mem_cons.mp h with h2 | h2
        · exact Or.inl h2
        · exact Or.inr h2

theorem sortDesc_mem {l : List (Agent × ℚ)} {y : Agent × ℚ} (h : y ∈ sortDesc l) : y ∈ l := by
  induction l with
  | nil => simpa [sortDesc] using h
  | cons x xs ih =>
      have h2 : y ∈ insertDesc x (sortDesc xs) := h
      rcases insertDesc_mem h2 with h3 | h3
      · simp [h3]
      · exact List.mem_cons_of_mem x (ih h3)

theorem sortDesc_head_mem {l : List (Agent × ℚ)} {p : Agent × ℚ} {ps : List (Agent × ℚ)}
    (h : sortDesc l = p :: ps) : p ∈ l :=
  sortDesc_mem (h ▸ List.mem_cons_self p ps)

theorem selectByCapability_mem {agents : List Agent} {req : List CapRequirement} {a : Agent}
    (h : selectByCapability agents req = some a) : a ∈ agents := by
  unfold selectByCapability at h
  by_cases hreq : req.isEmpty = true
  · rw [if_pos hreq] at h
    exact leastLoaded_mem h
  · rw [if_neg hreq] at h
    cases hs : sortDesc (agents.map (fun x => (x, capScore x req))) with
    | nil => rw [hs] at h; cases h
    | cons p ps =>
        rw [hs] at h
        simp only [Option.some.injEq] at h
        have hp := sortDesc_head_mem hs
        obtain ⟨x, hx, hxe⟩ := List.mem_map.mp hp
        rw [← h, ← hxe]
        exact hx

theorem selectByPerformance_mem {agents : List Agent} {req : List CapRequirement} {a : Agent}
    (h : selectByPerformance agents req = some a) : a ∈ agents := by
  unfold selectByPerformance at h
  cases hs : sortDesc (agents.map (fun x => (x, perfScore x req))) with
  | nil => rw [hs] at h; cases h
  | cons p ps =>
      rw [hs] at h
      simp only [Option.some.injEq] at h
      have hp := sortDesc_head_mem hs
      obtain ⟨x, hx, hxe⟩ := List.mem_map.mp hp
      rw [← h, ← hxe]
      exact hx

theorem selectHybrid_mem {agents : List Agent} {req : List CapRequirement} {a : Agent}
    (h : selectHybrid agents req = some a) : a ∈ agents := by
  unfold selectHybrid at h
  cases hc : selectByCapability agents req with
  | none =>
      rw [hc] at h
      cases hp : selectByPerformance agents req with
      | none => rw [hp] at h; cases h
      | some pa =>
          rw [hp] at h
          simp only [Option.some.injEq] at h
          exact h ▸ selectByPerformance_mem hp
  | some ca =>
      rw [hc] at h
      cases hp : selectByPerformance agents req with
      | none =>
          rw [hp] at h
          simp only [Option.some.injEq] at h
          exact h ▸ selectByCapability_mem hc
      | some pa =>
          rw [hp] at h
          simp only [] at h
          by_cases hid : (ca.id == pa.id) = true
          · rw [if_pos hid] at h
            simp only [Option.some.injEq] at h
            exact h ▸ selectByCapability_mem hc
          · rw [if_neg hid] at h
            by_cases hl : (ca.currentLoad < pa.currentLoad)
            · rw [if_pos hl] at h
              simp only [Option.some.injEq] at h
              exact h ▸ selectByCapability_mem hc
            · rw [if_neg hl] at h
              simp only [Option.some.injEq] at h
              exact h ▸ selectByPerformance_mem hp

theorem rrLoop_mem {agents : List Agent} {a : Agent} :
    ∀ (fuel : Nat) (q : List String), (rrLoop agents fuel q).1 = some a → a ∈ agents := by
  intro fuel
  induction fuel with
  | zero => intro q h; cases h
  | succ n ih =>
      intro q h
      cases q with
      | nil => cases h
      | cons aid rest =>
          unfold rrLoop at h
          simp only [] at h
          cases hf : agents.find? (fun x => x.id == aid) with
          | some b =>
              rw [hf] at h
              simp only [Option.some.injEq] at h
              exact h ▸ List.mem_of_find?_eq_some hf
          | none =>
              rw [hf] at h
              exact ih (rest ++ [aid]) h

theorem selectRoundRobin_mem {agents : List Agent} {q : List String} {a : Agent}
    (h : (selectRoundRobin agents q).1 = some a) : a ∈ agents := by
  unfold selectRoundRobin at h
  cases hr : rrLoop agents q.length q with
  | mk o q' =>
      cases o with
      | some b =>
          rw [hr] at h
          simp only [Option.some.injEq] at h
          exact h ▸ rrLoop_mem q.length q (by rw [hr])
      | none =>
          rw [hr] at h
          simp only [] at h
          cases agents with
          | nil => cases h
          | cons c cs =>
              simp only [List.head?, Option.some.injEq] at h
              exact h ▸ List.mem_cons_self c cs

theorem selectByStrategy_spec (st : Orchestrator) (cands : List Agent)
    (req : List CapRequirement) :
    (selectByStrategy st cands req).2.agents = st.agents ∧
    (selectByStrategy st cands req).2.assignments = st.assignments ∧
    (∀ a, (selectByStrategy st cands req).1 = some a → a ∈ cands) := by
  unfold selectByStrategy
  cases hs : st.strategy with
  | roundRobin => exact ⟨rfl, rfl, fun a h => selectRoundRobin_mem h⟩
  | leastLoaded => exact ⟨rfl, rfl, fun a h => leastLoaded_mem h⟩
  | capabilityBased => exact ⟨rfl, rfl, fun a h => selectByCapability_mem h⟩
  | performanceBased => exact ⟨rfl, rfl, fun a h => selectByPerformance_mem h⟩
  | hybrid => exact ⟨rfl, rfl, fun a h => selectHybrid_mem h⟩

theorem selectAgent_spec (st : Orchestrator) (req : List CapRequirement)
    (pref : Option String) :
    (selectAgent st req pref).2.agents = st.agents ∧
    (selectAgent st req pref).2.assignments = st.assignments ∧
    (∀ a, (selectAgent st req pref).1 = some a → a ∈ st.agents) := by
  have hvia :
      (let candidates := st.agents.filter (fun a =>
        a.status == .available && decide (a.currentLoad < 100))
      if candidates.isEmpty then ((none : Option Agent), st)
      else selectByStrategy st candidates req).2.agents = st.agents ∧
      (let candidates := st.agents.filter (fun a =>
        a.status == .available && decide (a.currentLoad < 100))
      if candidates.isEmpty then ((none : Option Agent), st)
      else selectByStrategy st candidates req).2.assignments = st.assignments ∧
      (∀ a, (let candidates := st.agents.filter (fun a =>
        a.status == .available && decide (a.currentLoad < 100))
      if candidates.isEmpty then ((none : Option Agent), st)
      else selectByStrategy st candidates req).1 = some a → a ∈ st.agents) := by
    by_cases hemp : (st.agents.filter (fun a =>
        a.status == .available && decide (a.currentLoad < 100))).isEmpty = true
    · refine ⟨?_, ?_, ?_⟩
      · simp only [hemp, if_true]
      · simp only [hemp, if_true]
      · intro a h
        simp only [hemp, if_true] at h
        cases h
    · obtain ⟨h1, h2, h3⟩ := selectByStrategy_spec st
        (st.agents.filter (fun a => a.status == .available && decide (a.currentLoad < 100))) req
      refine ⟨?_, ?_, ?_⟩
      · simp only [hemp, Bool.false_eq_true, if_false]
        exact h1
      · simp only [hemp, Bool.false_eq_true, if_false]
        exact h2
      · intro a h
        simp only [hemp, Bool.false_eq_true, if_false] at h
        exact (List.mem_filter.mp (h3 a h)).1
  cases pref with
  | none => exact hvia
  | some pid =>
      unfold selectAgent
      simp only []
      cases hg : getAgent st pid with
      | none => exact hvia
      | some b =>
          by_cases hok : (b.status == AgentStatus.available && decide (b.currentLoad < 100)) = true
          · refine ⟨?_, ?_, ?_⟩
            · simp only [hok, if_true]
            · simp only [hok, if_true]
            · intro a h
              simp only [hok, if_true, Option.some.injEq] at h
              exact h ▸ List.mem_of_find?_eq_some hg
          · simp only [hok, Bool.false_eq_true, if_false]
            exact hvia

theorem reassignTask_consistent (st : Orchestrator) (tid : String)
    (h : orchConsistent st) : orchConsistent (reassignTask st tid) := by
  unfold reassignTask
  cases ha : getAssignment st tid with
  | none => exact h
  | some asg =>
      simp only []
      cases hl : leastLoaded (eligibleForReassign st asg.agentId) with
      | none => exact h
      | some newAgent =>
          have hmem : newAgent ∈ st.agents := by
            have h1 := leastLoaded_mem hl
            exact (List.mem_filter.mp h1).1
          have hwf : wfAgent newAgent := h newAgent hmem
          refine putAgent_consistent ?_ (wfAgent_retasked newAgent _ hwf)
          exact orchConsistent_of_agents_eq rfl h

theorem foldl_reassign_consistent (ts : List String) :
    ∀ (st : Orchestrator), orchConsistent st →
      orchConsistent (ts.foldl (fun s t => reassignTask s t) st) := by
  induction ts with
  | nil => intro st h; exact h
  | cons t rest ih =>
      intro st h
      exact ih (reassignTask st t) (reassignTask_consistent st t h)

theorem reassignAgentTasks_consistent (st : Orchestrator) (aid : String)
    (h : orchConsistent st) : orchConsistent (reassignAgentTasks st aid) := by
  unfold reassignAgentTasks
  cases hg : getAgent st aid with
  | none => exact h
  | some agent =>
      simp only []
      have h1 := foldl_reassign_consistent agent.activeTasks st h
      cases hg2 : getAgent (agent.activeTasks.foldl (fun s t => reassignTask s t) st) aid with
      | none => exact h1
      | some a2 =>
          have hwf : wfAgent a2 := h1 a2 (List.mem_of_find?_eq_some hg2)
          exact putAgent_consistent h1 (wfAgent_cleared a2 hwf)

theorem updateAgentStatus_consistent (st : Orchestrator) (aid : String) (status : AgentStatus)
    (h : orchConsistent st) : orchConsistent (updateAgentStatus st aid status) := by
  unfold updateAgentStatus
  cases hg : getAgent st aid with
  | none => exact h
  | some a =>
      simp only []
      have hwf : wfAgent a := h a (List.mem_of_find?_eq_some hg)
      have h1 : orchConsistent (putAgent st { a with status := status }) :=
        putAgent_consistent h (wfAgent_status a status hwf)
      by_cases hb : (status == AgentStatus.offline || status == AgentStatus.error) = true
      · rw [if_pos hb]
        exact reassignAgentTasks_consistent _ aid h1
      · rw [if_neg hb]
        exact h1

theorem assignTask_consistent (st : Orchestrator) (p : AssignParams) (now : Nat)
    (h : orchConsistent st) : orchConsistent (assignTask st p now).2 := by
  unfold assignTask
  obtain ⟨hagents, hassign, hmem⟩ := selectAgent_spec st p.required p.preferred
  cases hs : (selectAgent st p.required p.preferred).1 with
  | none =>
      simp only [hs]
      exact orchConsistent_of_agents_eq hagents h
  | some agent =>
      simp only [hs]
      have hin : agent ∈ st.agents := hmem agent hs
      have hwf : wfAgent agent := h agent hin
      have hsel2 : orchConsistent (selectAgent st p.required p.preferred).2 :=
        orchConsistent_of_agents_eq hagents h
      exact putAgent_consistent hsel2 (wfAgent_retasked agent _ hwf)

theorem startTask_consistent (st : Orchestrator) (tid : String) (now : Nat)
    (h : orchConsistent st) : orchConsistent (startTask st tid now).2 := by
  unfold startTask
  cases hg : getAssignment st tid with
  | none => exact h
  | some asg => exact orchConsistent_of_agents_eq rfl h

theorem completeTask_consistent (st : Orchestrator) (tid : String) (now : Nat)
    (h : orchConsistent st) : orchConsistent (completeTask st tid now).2 := by
  unfold completeTask
  cases hg : getAssignment st tid with
  | none => exact h
  | some asg =>
      simp only []
      cases hag : getAgent st asg.agentId with
      | none => exact h
      | some agent =>
          have hwf : wfAgent agent := h agent (List.mem_of_find?_eq_some hag)
          exact putAgent_consistent h (wfAgent_retasked_perf agent _ _ hwf)

theorem failTask_consistent (st : Orchestrator) (tid err : String) (retry : Bool) (now : Nat)
    (h : orchConsistent st) : orchConsistent (failTask st tid err retry now).2 := by
  unfold failTask
  cases hg : getAssignment st tid with
  | none => exact h
  | some asg =>
      have h1 : orchConsistent
          (match getAgent st asg.agentId with
           | some agent =>
               putAgent st { agent with
                 performance := { agent.performance with
                   successRate := agent.performance.successRate *
                     (agent.performance.tasksCompleted : ℚ) /
                     ((agent.performance.tasksCompleted : ℚ) + 1) },
                 activeTasks := agent.activeTasks.filter (fun t => t != tid),
                 currentLoad := loadOf (agent.activeTasks.filter (fun t => t != tid))
                   agent.maxConcurrentTasks }
           | none => st) := by
        cases hag : getAgent st asg.agentId with
        | none => exact h
        | some agent =>
            have hwf : wfAgent agent := h agent (List.mem_of_find?_eq_some hag)
            exact putAgent_consistent h (wfAgent_retasked_perf agent _ _ hwf)
      by_cases hretry : (retry && decide (asg.retryCount + 1 < 3)) = true
      · simp only [hretry, if_true]
        refine reassignTask_consistent _ tid ?_
        exact orchConsistent_of_agents_eq rfl h1
      · simp only [hretry, Bool.false_eq_true, if_false]
        exact orchConsistent_of_agents_eq rfl h1

theorem registerAgent_consistent (st : Orchestrator) (a : Agent)
    (hst : orchConsistent st) (ha : wfAgent a) : orchConsistent (registerAgent st a) := by
  unfold orchConsistent registerAgent
  intro x hx
  rcases mem_setAgentList hx with rfl | hx2
  · exact ha
  · exact hst x hx2

/-- Counterexample for C4: `registerAgent` stores the caller-supplied
record verbatim, so registering an agent whose stored `currentLoad`
(50) disagrees with its empty active-task list immediately violates
the claimed invariant after a public operation. -/
theorem c4_load_invariant_counterexample :
    getAgent (registerAgent (mkOrchestrator .capabilityBased) badLoadAgent) "x"
      = some badLoadAgent ∧
    badLoadAgent.currentLoad = 50 ∧
    loadOf badLoadAgent.activeTasks badLoadAgent.maxConcurrentTasks = 0 ∧
    ¬ orchConsistent (registerAgent (mkOrchestrator .capabilityBased) badLoadAgent) := by
  refine ⟨by decide, rfl, by decide, ?_⟩
  intro h
  have := h badLoadAgent (by decide)
  have h2 := this.2
  rw [loadConsistent] at h2
  revert h2
  decide

/-- Claim C4 (amended): every public orchestrator operation preserves
the load-consistency invariant `currentLoad =
100 * |activeTasks| / maxConcurrentTasks` for all registered agents,
and `registerAgent` establishes it when (and only to the extent that)
the supplied record itself satisfies it — the default registry of the
constructor does. The claim as stated fails only because
`registerAgent` stores an arbitrary caller record without recomputing
its load (see the counterexample). -/
theorem c4_load_consistency_preserved :
    (∀ (st : Orchestrator) (a : Agent),
      orchConsistent st → wfAgent a → orchConsistent (registerAgent st a)) ∧
    (∀ (st : Orchestrator) (aid : String) (status : AgentStatus),
      orchConsistent st → orchConsistent (updateAgentStatus st aid status)) ∧
    (∀ (st : Orchestrator) (p : AssignParams) (now : Nat),
      orchConsistent st → orchConsistent (assignTask st p now).2) ∧
    (∀ (st : Orchestrator) (tid : String) (now : Nat),
      orchConsistent st → orchConsistent (startTask st tid now).2) ∧
    (∀ (st : Orchestrator) (tid : String) (now : Nat),
      orchConsistent st → orchConsistent (completeTask st tid now).2) ∧
    (∀ (st : Orchestrator) (tid err : String) (retry : Bool) (now : Nat),
      orchConsistent st → orchConsistent (failTask st tid err retry now).2) ∧
    (∀ strat, orchConsistent (mkOrchestrator strat)) :=
  ⟨registerAgent_consistent,
   updateAgentStatus_consistent,
   assignTask_consistent,
   startTask_consistent,
   completeTask_consistent,
   fun st tid err retry now => failTask_consistent st tid err retry now,
   fun strat => by cases strat <;> decide⟩

/-- Witness for C4: the constructor state is consistent and stays so
after an `assignTask` call. -/
theorem c4_load_consistency_preserved_witness :
    orchConsistent (mkOrchestrator .capabilityBased) ∧
    orchConsistent (assignTask (mkOrchestrator .capabilityBased) dbgParams 0).2 :=
  ⟨by decide,
   c4_load_consistency_preserved.2.2.1 (mkOrchestrator .capabilityBased) dbgParams 0 (by decide)⟩

theorem setAssignmentList_find (l : List TaskAssignment) (x : TaskAssignment) (tid : String)
    (hx : x.taskId = tid) :
    (setAssignmentList l x).find? (fun y => y.taskId == tid) = some x := by
  induction l with
  | nil => simp [setAssignmentList, List.find?_cons, hx]
  | cons y rest ih =>
      unfold setAssignmentList
      by_cases hy : (y.taskId == x.taskId) = true
      · rw [if_pos hy]
        simp [List.find?_cons, hx]
      · rw [if_neg hy]
        rw [Bool.not_eq_true] at hy
        have hyt : (y.taskId == tid) = false := by rw [← hx]; exact hy
        simp only [List.find?_cons, hyt]
        exact ih

theorem getAssignment_put (st : Orchestrator) (x : TaskAssignment) (tid : String)
    (hx : x.taskId = tid) : getAssignment (putAssignment st x) tid = some x :=
  setAssignmentList_find st.assignments x tid hx

theorem getAssignment_taskId {st : Orchestrator} {tid : String} {asg : TaskAssignment}
    (h : getAssignment st tid = some asg) : asg.taskId = tid := by
  simpa using List.find?_some h

theorem getAgent_id {st : Orchestrator} {aid : String} {a : Agent}
    (h : getAgent st aid = some a) : a.id = aid := by
  simpa using List.find?_some h

theorem mem_setAgentList_of_ne {l : List Agent} {b a : Agent}
    (hb : b ∈ l) (hne : (b.id == a.id) = false) : b ∈ setAgentList l a := by
  induction l with
  | nil => cases hb
  | cons c rest ih =>
      by_cases hc : (c.id == a.id) = true
      · simp only [setAgentList, hc, if_true]
        rcases List.mem_cons.mp hb with rfl | hb2
        · exfalso
          rw [hc] at hne
          cases hne
        · exact List.mem_cons_of_mem a hb2
      · simp only [setAgentList, hc, Bool.false_eq_true, if_false]
        rcases List.mem_cons.mp hb with rfl | hb2
        · exact List.mem_cons_self b _
        · exact List.mem_cons_of_mem c (ih hb2)

theorem setAgentList_find_self (l : List Agent) (b : Agent) (aid : String) (hb : b.id = aid) :
    (setAgentList l b).find? (fun a => a.id == aid) = some b := by
  induction l with
  | nil => simp [setAgentList, List.find?_cons, hb]
  | cons c rest ih =>
      unfold setAgentList
      by_cases hc : (c.id == b.id) = true
      · rw [if_pos hc]
        simp [List.find?_cons, hb]
      · rw [if_neg hc]
        rw [Bool.not_eq_true] at hc
        have hct : (c.id == aid) = false := by rw [← hb]; exact hc
        simp only [List.find?_cons, hct]
        exact ih

theorem getAgent_put_self (st : Orchestrator) (b : Agent) (aid : String) (hb : b.id = aid) :
    getAgent (putAgent st b) aid = some b :=
  setAgentList_find_self st.agents b aid hb

theorem setAgentList_find_ne (l : List Agent) (b : Agent) (aid : String)
    (hb : (b.id == aid) = false) :
    (setAgentList l b).find? (fun a => a.id == aid) = l.find? (fun a => a.id == aid) := by
  induction l with
  | nil => simp [setAgentList, List.find?_cons, hb]
  | cons c rest ih =>
      by_cases hc : (c.id == b.id) = true
      · have hcb : c.id = b.id := by simpa using hc
        have hct : (c.id == aid) = false := by rw [hcb]; exact hb
        simp only [setAgentList, hc, if_true, List.find?_cons, hct, hb]
      · rw [Bool.not_eq_true] at hc
        simp only [setAgentList, hc, Bool.false_eq_true, if_false, List.find?_cons]
        cases hca : (c.id == aid) with
        | true => rfl
        | false => exact ih

theorem getAgent_put_ne (st : Orchestrator) (b : Agent) (aid : String)
    (hb : (b.id == aid) = false) : getAgent (putAgent st b) aid = getAgent st aid :=
  setAgentList_find_ne st.agents b aid hb

theorem setAgentList_ids_of_mem (l : List Agent) (a : Agent)
    (h : a.id ∈ l.map (fun x => x.id)) :
    (setAgentList l a).map (fun x => x.id) = l.map (fun x => x.id) := by
  induction l with
  | nil => cases h
  | cons c rest ih =>
      by_cases hc : (c.id == a.id) = true
      · have hcb : c.id = a.id := by simpa using hc
        simp [setAgentList, hc, hcb]
      · rw [Bool.not_eq_true] at hc
        have h2 : a.id ∈ rest.map (fun x => x.id) := by
          rcases List.mem_cons.mp h with he | h2
          · exfalso
            rw [he] at hc
            simp at hc
          · exact h2
        simp [setAgentList, hc, ih h2]

theorem eq_of_mem_nodup_ids {l : List Agent}
    (hn : (l.map (fun x => x.id)).Nodup) {a b : Agent}
    (ha : a ∈ l) (hb : b ∈ l) (hid : a.id = b.id) : a = b := by
  induction l with
  | nil => cases ha
  | cons c rest ih =>
      rw [List.map_cons, List.nodup_cons] at hn
      rcases List.mem_cons.mp ha with rfl | ha2
      · rcases List.mem_cons.mp hb with rfl | hb2
        · rfl
        · exfalso
          exact hn.1 (hid ▸ List.mem_map_of_mem (fun x => x.id) hb2)
      · rcases List.mem_cons.mp hb with rfl | hb2
        · exfalso
          exact hn.1 (hid ▸ List.mem_map_of_mem (fun x => x.id) ha2)
        · exact ih hn.2 ha2 hb2

/-- The invariant carried through the reassignment loop of
`reassignAgentTasks`: the failed agent's (non-available) record stays
in place and the id multiset of the registry does not change. -/
theorem reassignTask_tracked (rec : Agent) (aid : String)
    (hstat : rec.status ≠ .available) (s : Orchestrator) (t : String)
    (hga : getAgent s aid = some rec)
    (hids : (s.agents.map (fun x => x.id)).Nodup) :
    getAgent (reassignTask s t) aid = some rec ∧
    ((reassignTask s t).agents.map (fun x => x.id)) = s.agents.map (fun x => x.id) := by
  unfold reassignTask
  cases ha : getAssignment s t with
  | none => exact ⟨hga, rfl⟩
  | some asg =>
      simp only []
      cases hl : leastLoaded (eligibleForReassign s asg.agentId) with
      | none => exact ⟨hga, rfl⟩
      | some newAgent =>
          simp only []
          have hmemElig := leastLoaded_mem hl
          have hmem : newAgent ∈ s.agents := (List.mem_filter.mp hmemElig).1
          have hpred := (List.mem_filter.mp hmemElig).2
          simp only [Bool.and_eq_true, beq_iff_eq] at hpred
          have hav : newAgent.status = .available := hpred.1.2
          have hne : (newAgent.id == aid) = false := by
            cases hna : (newAgent.id == aid) with
            | false => rfl
            | true =>
                exfalso
                have hideq : newAgent.id = aid := by simpa using hna
                have hrecmem : rec ∈ s.agents := List.mem_of_find?_eq_some hga
                have hreceq : newAgent = rec :=
                  eq_of_mem_nodup_ids hids hmem hrecmem (by rw [hideq, getAgent_id hga])
                rw [hreceq] at hav
                exact hstat hav
          constructor
          · exact (getAgent_put_ne
              (putAssignment s { asg with agentId := newAgent.id, status := .reassigned })
              { newAgent with
                  activeTasks := newAgent.activeTasks ++ [t],
                  currentLoad := loadOf (newAgent.activeTasks ++ [t]) newAgent.maxConcurrentTasks }
              aid hne).trans hga
          · show (setAgentList s.agents _).map (fun x => x.id) = _
            exact setAgentList_ids_of_mem s.agents _
              (List.mem_map_of_mem (fun x => x.id) hmem)

theorem reassign_fold_tracked (rec : Agent) (aid : String)
    (hstat : rec.status ≠ .available) (ts : List String) :
    ∀ (s : Orchestrator), getAgent s aid = some rec →
      (s.agents.map (fun x => x.id)).Nodup →
      getAgent (ts.foldl (fun s t => reassignTask s t) s) aid = some rec := by
  induction ts with
  | nil => intro s hga _; exact hga
  | cons t rest ih =>
      intro s hga hids
      obtain ⟨h1, h2⟩ := reassignTask_tracked rec aid hstat s t hga hids
      exact ih (reassignTask s t) h1 (h2 ▸ hids)

/-- Counterexample for C5: after two retried failures the assignment's
`retryCount` is 2 (< 3) and another eligible agent exists, yet the
third `failTask` with `retry = true` marks the assignment `failed`
instead of reassigning it. -/
theorem c5_retry_bound_counterexample :
    (getAssignment c5s3 "t").map (fun a => (a.agentId, a.retryCount)) = some ("oa", 2) ∧
    (∃ b ∈ c5s3.agents, b.id ≠ "oa" ∧ b.status = .available ∧ b.currentLoad < 100) ∧
    (getAssignment (failTask c5s3 "t" "e3" true 3).2 "t").map (fun a => a.status)
      = some AssignStatus.failed := by
  refine ⟨by decide, by decide, by decide⟩

/-- Claim C5 (amended): `failTask` increments `retryCount` before the
`< 3` comparison, so with `retry = true` the task is reassigned
exactly when the assignment's retryCount before the call is below 2
(status `reassigned` when another eligible agent exists); from a prior
retryCount of 2 on, the assignment is marked `failed` terminally and
no reassignment is attempted. -/
theorem c5_retry_bound (st : Orchestrator) (tid err : String) (now : Nat)
    (asg : TaskAssignment) (hasg : getAssignment st tid = some asg) :
    (asg.retryCount + 1 < 3 →
      (∃ b ∈ st.agents, (b.id == asg.agentId) = false ∧
        b.status = .available ∧ b.currentLoad < 100) →
      ∃ asg2, getAssignment (failTask st tid err true now).2 tid = some asg2 ∧
        asg2.status = .reassigned ∧ asg2.agentId ≠ asg.agentId ∧
        asg2.retryCount = asg.retryCount + 1) ∧
    (3 ≤ asg.retryCount + 1 →
      ∃ asg2, getAssignment (failTask st tid err true now).2 tid = some asg2 ∧
        asg2.status = .failed ∧ asg2.agentId = asg.agentId ∧
        asg2.retryCount = asg.retryCount + 1) := by
  have htid : asg.taskId = tid := getAssignment_taskId hasg
  unfold failTask
  rw [hasg]
  simp only []
  constructor
  · intro hlt hb
    obtain ⟨b, hbmem, hbne, hbav, hbload⟩ := hb
    rw [if_pos (by simp only [Bool.true_and]; exact decide_eq_true hlt)]
    set asg1 : TaskAssignment := { asg with error := some err, retryCount := asg.retryCount + 1 }
      with hasg1
    have hasg1tid : asg1.taskId = tid := htid
    cases hag : getAgent st asg.agentId with
    | none =>
        simp only [hag]
        have hget2 : getAssignment (putAssignment st asg1) tid = some asg1 :=
          getAssignment_put st asg1 tid hasg1tid
        unfold reassignTask
        rw [hget2]
        simp only []
        have hbmem2 : b ∈ eligibleForReassign (putAssignment st asg1) asg1.agentId := by
          refine List.mem_filter.mpr ⟨hbmem, ?_⟩
          simp only [Bool.and_eq_true, bne_iff_ne, beq_iff_eq]
          refine ⟨⟨?_, hbav⟩, decide_eq_true hbload⟩
          intro he
          rw [show asg1.agentId = asg.agentId from rfl] at he
          rw [he] at hbne
          simp at hbne
        cases hl : leastLoaded (eligibleForReassign (putAssignment st asg1) asg1.agentId) with
        | none =>
            exfalso
            cases he : eligibleForReassign (putAssignment st asg1) asg1.agentId with
            | nil => rw [he] at hbmem2; cases hbmem2
            | cons c cs => rw [he] at hl; simp [leastLoaded] at hl
        | some newAgent =>
            simp only []
            have hnmem := leastLoaded_mem hl
            have hnpred := (List.mem_filter.mp hnmem).2
            simp only [Bool.and_eq_true, bne_iff_ne, beq_iff_eq] at hnpred
            refine ⟨{ asg1 with agentId := newAgent.id, status := .reassigned },
              ?_, rfl, ?_, rfl⟩
            · show getAssignment (putAgent _ _) tid = _
              exact getAssignment_put _ _ tid hasg1tid
            · exact hnpred.1.1
    | some agent =>
        simp only [hag]
        set agent3 : Agent := { agent with
          performance := { agent.performance with
            successRate := agent.performance.successRate *
              (agent.performance.tasksCompleted : ℚ) /
              ((agent.performance.tasksCompleted : ℚ) + 1) },
          activeTasks := agent.activeTasks.filter (fun t => t != tid),
          currentLoad := loadOf (agent.activeTasks.filter (fun t => t != tid))
            agent.maxConcurrentTasks } with hagent3
        have hget2 : getAssignment (putAssignment (putAgent st agent3) asg1) tid = some asg1 :=
          getAssignment_put _ asg1 tid hasg1tid
        unfold reassignTask
        rw [hget2]
        simp only []
        have hbmem1 : b ∈ (putAssignment (putAgent st agent3) asg1).agents := by
          show b ∈ setAgentList st.agents agent3
          refine mem_setAgentList_of_ne hbmem ?_
          have haid : agent.id = asg.agentId := getAgent_id hag
          show (b.id == agent.id) = false
          rw [haid]
          exact hbne
        have hbmem2 : b ∈ eligibleForReassign (putAssignment (putAgent st agent3) asg1)
            asg1.agentId := by
          refine List.mem_filter.mpr ⟨hbmem1, ?_⟩
          simp only [Bool.and_eq_true, bne_iff_ne, beq_iff_eq]
          refine ⟨⟨?_, hbav⟩, decide_eq_true hbload⟩
          intro he
          rw [show asg1.agentId = asg.agentId from rfl] at he
          rw [he] at hbne
          simp at hbne
        cases hl : leastLoaded (eligibleForReassign (putAssignment (putAgent st agent3) asg1)
            asg1.agentId) with
        | none =>
            exfalso
            cases he : eligibleForReassign (putAssignment (putAgent st agent3) asg1)
                asg1.agentId with
            | nil => rw [he] at hbmem2; cases hbmem2
            | cons c cs => rw [he] at hl; simp [leastLoaded] at hl
        | some newAgent =>
            simp only []
            have hnmem := leastLoaded_mem hl
            have hnpred := (List.mem_filter.mp hnmem).2
            simp only [Bool.and_eq_true, bne_iff_ne, beq_iff_eq] at hnpred
            refine ⟨{ asg1 with agentId := newAgent.id, status := .reassigned },
              ?_, rfl, ?_, rfl⟩
            · show getAssignment (putAgent _ _) tid = _
              exact getAssignment_put _ _ tid hasg1tid
            · exact hnpred.1.1
  · intro hge
    rw [if_neg (by simp only [Bool.true_and]; simp; omega)]
    cases hag : getAgent st asg.agentId with
    | none =>
        simp only [hag]
        refine ⟨{ asg with
            error := some err,
            retryCount := asg.retryCount + 1,
            status := AssignStatus.failed,
            completedAt := some now },
          ?_, rfl, rfl, rfl⟩
        show getAssignment (putAssignment _ _) tid = _
        exact getAssignment_put _ _ tid htid
    | some agent =>
        simp only [hag]
        refine ⟨{ asg with
            error := some err,
            retryCount := asg.retryCount + 1,
            status := AssignStatus.failed,
            completedAt := some now },
          ?_, rfl, rfl, rfl⟩
        show getAssignment (putAssignment _ _) tid = _
        exact getAssignment_put _ _ tid htid

/-- Witness for C5: failing the task with prior retryCount 0 reassigns
it to another agent. -/
theorem c5_retry_bound_witness :
    getAssignment c5wSt "t" = some c5wAsg ∧
    c5wAsg.retryCount + 1 < 3 ∧
    ∃ asg2, getAssignment (failTask c5wSt "t" "boom" true 9).2 "t" = some asg2 ∧
      asg2.status = .reassigned ∧ asg2.agentId ≠ c5wAsg.agentId ∧
      asg2.retryCount = c5wAsg.retryCount + 1 :=
  ⟨by decide, by decide,
   (c5_retry_bound c5wSt "t" "boom" 9 c5wAsg (by decide)).1 (by decide)
     ⟨oAgentB, by decide, by decide, by decide, by decide⟩⟩

/-- Counterexample for C6: agent `ca` fails holding two tasks while
`cb` (capacity 1) is available with load 0; the first task saturates
`cb`, so the second assignment ends `failed`, not `reassigned`,
although another agent was available below full load when the call
was made. -/
theorem c6_agent_failure_counterexample :
    c6AgentB ∈ c6St.agents ∧
    c6AgentB.status = .available ∧
    c6AgentB.currentLoad < 100 ∧
    (getAssignment (updateAgentStatus c6St "ca" .error) "t1").map (fun x => (x.agentId, x.status))
      = some ("cb", AssignStatus.reassigned) ∧
    (getAssignment (updateAgentStatus c6St "ca" .error) "t2").map (fun x => x.status)
      = some AssignStatus.failed := by
  refine ⟨by decide, by decide, by decide, by decide, by decide⟩

theorem reassignAgentTasks_single (st1 : Orchestrator) (aid t : String) (rec : Agent)
    (asg : TaskAssignment)
    (hga : getAgent st1 aid = some rec) (htasks : rec.activeTasks = [t])
    (hgasg : getAssignment st1 t = some asg) (hagid : asg.agentId = aid)
    (hb : ∃ b ∈ st1.agents, (b.id == aid) = false ∧ b.status = .available ∧
      b.currentLoad < 100) :
    ∃ asg2, getAssignment (reassignAgentTasks st1 aid) t = some asg2 ∧
      asg2.status = .reassigned ∧ asg2.agentId ≠ aid := by
  obtain ⟨b, hbmem, hbne, hbav, hbload⟩ := hb
  have htid : asg.taskId = t := getAssignment_taskId hgasg
  unfold reassignAgentTasks
  rw [hga]
  simp only []
  rw [htasks]
  rw [show ([t].foldl (fun s x => reassignTask s x) st1) = reassignTask st1 t from rfl]
  have hend :
      ∃ asg2, getAssignment (reassignTask st1 t) t = some asg2 ∧
        asg2.status = .reassigned ∧ asg2.agentId ≠ aid := by
    unfold reassignTask
    rw [hgasg]
    simp only []
    have hbelig : b ∈ eligibleForReassign st1 asg.agentId := by
      refine List.mem_filter.mpr ⟨hbmem, ?_⟩
      simp only [Bool.and_eq_true, bne_iff_ne, beq_iff_eq]
      refine ⟨⟨?_, hbav⟩, decide_eq_true hbload⟩
      intro he
      rw [he.trans hagid] at hbne
      simp at hbne
    cases hl : leastLoaded (eligibleForReassign st1 asg.agentId) with
    | none =>
        exfalso
        cases he : eligibleForReassign st1 asg.agentId with
        | nil => rw [he] at hbelig; cases hbelig
        | cons c cs => rw [he] at hl; simp [leastLoaded] at hl
    | some newAgent =>
        simp only []
        have hnpred := (List.mem_filter.mp (leastLoaded_mem hl)).2
        simp only [Bool.and_eq_true, bne_iff_ne, beq_iff_eq] at hnpred
        refine ⟨{ asg with agentId := newAgent.id, status := .reassigned },
          ?_, rfl, ?_⟩
        · show getAssignment (putAgent _ _) t = _
          exact getAssignment_put _ _ t htid
        · rw [← hagid]
          exact hnpred.1.1
  obtain ⟨asg2, hget2, hstat2, hid2⟩ := hend
  cases hg2 : getAgent (reassignTask st1 t) aid with
  | none =>
      simp only []
      exact ⟨asg2, hget2, hstat2, hid2⟩
  | some a2 =>
      simp only []
      refine ⟨asg2, ?_, hstat2, hid2⟩
      show getAssignment (putAgent _ _) t = _
      exact hget2

/-- Claim C6 (amended): setting an agent's status to `offline` or
`error` always clears its active-task list and zeroes its load; each
of its tasks is moved to another agent only if an eligible agent
exists when that task is processed (with a single task and another
available agent below full load, the assignment becomes `reassigned`
with a different agentId); a task finding no eligible agent at its
turn keeps/receives the `failed` status instead. -/
theorem c6_agent_failure_reassign :
    (∀ (st : Orchestrator) (aid : String) (status : AgentStatus) (a : Agent),
      (st.agents.map (fun x => x.id)).Nodup →
      (status = .offline ∨ status = .error) →
      getAgent st aid = some a →
      ∃ a2, getAgent (updateAgentStatus st aid status) aid = some a2 ∧
        a2.activeTasks = [] ∧ a2.currentLoad = 0 ∧ a2.status = status) ∧
    (∀ (st : Orchestrator) (aid t : String) (status : AgentStatus) (a : Agent)
        (asg : TaskAssignment),
      (status = .offline ∨ status = .error) →
      getAgent st aid = some a →
      a.activeTasks = [t] →
      getAssignment st t = some asg →
      asg.agentId = aid →
      (∃ b ∈ st.agents, (b.id == aid) = false ∧ b.status = .available ∧ b.currentLoad < 100) →
      ∃ asg2, getAssignment (updateAgentStatus st aid status) t = some asg2 ∧
        asg2.status = .reassigned ∧ asg2.agentId ≠ aid) := by
  constructor
  · intro st aid status a hnodup hs hga
    have haid : a.id = aid := getAgent_id hga
    have hcond : (status == AgentStatus.offline || status == AgentStatus.error) = true := by
      rcases hs with rfl | rfl <;> decide
    unfold updateAgentStatus
    rw [hga]
    simp only []
    rw [if_pos hcond]
    unfold reassignAgentTasks
    have hga1 : getAgent (putAgent st { a with status := status }) aid
        = some { a with status := status } :=
      getAgent_put_self st _ aid haid
    rw [hga1]
    simp only []
    have hstat : ({ a with status := status } : Agent).status ≠ .available := by
      rcases hs with rfl | rfl <;> simp
    have hids1 : ((putAgent st { a with status := status }).agents.map (fun x => x.id)).Nodup := by
      show ((setAgentList st.agents _).map (fun x => x.id)).Nodup
      rw [setAgentList_ids_of_mem st.agents _ (by
        show a.id ∈ st.agents.map (fun x => x.id)
        exact List.mem_map_of_mem (fun x => x.id) (List.mem_of_find?_eq_some hga))]
      exact hnodup
    have hgafold := reassign_fold_tracked { a with status := status } aid hstat
      (({ a with status := status } : Agent).activeTasks)
      (putAgent st { a with status := status }) hga1 hids1
    rw [hgafold]
    simp only []
    refine ⟨{ ({ a with status := status } : Agent) with
        activeTasks := ([] : List String), currentLoad := (0 : ℚ) },
      ?_, rfl, rfl, rfl⟩
    exact getAgent_put_self _ _ aid haid
  · intro st aid t status a asg hs hga htasks hgasg hagid hb
    have haid : a.id = aid := getAgent_id hga
    have hcond : (status == AgentStatus.offline || status == AgentStatus.error) = true := by
      rcases hs with rfl | rfl <;> decide
    unfold updateAgentStatus
    rw [hga]
    simp only []
    rw [if_pos hcond]
    obtain ⟨b, hbmem, hbne, hbav, hbload⟩ := hb
    refine reassignAgentTasks_single (putAgent st { a with status := status }) aid t
      { a with status := status } asg (getAgent_put_self st _ aid haid) htasks hgasg hagid
      ⟨b, ?_, hbne, hbav, hbload⟩
    show b ∈ setAgentList st.agents _
    refine mem_setAgentList_of_ne hbmem ?_
    show (b.id == a.id) = false
    rw [haid]
    exact hbne

/-- Witness for C6: failing agent `oa` while it holds the single task
`t` clears its task list and load, and the task is reassigned to a
different agent. -/
theorem c6_agent_failure_reassign_witness :
    (∃ a2, getAgent (updateAgentStatus c5wSt "oa" .error) "oa" = some a2 ∧
      a2.activeTasks = [] ∧ a2.currentLoad = 0 ∧ a2.status = AgentStatus.error) ∧
    (∃ asg2, getAssignment (updateAgentStatus c5wSt "oa" .error) "t" = some asg2 ∧
      asg2.status = .reassigned ∧ asg2.agentId ≠ "oa") :=
  ⟨c6_agent_failure_reassign.1 c5wSt "oa" .error oAgentABusy (by decide) (Or.inr rfl) (by decide),
   c6_agent_failure_reassign.2 c5wSt "oa" "t" .error oAgentABusy c5wAsg (Or.inr rfl)
     (by decide) (by decide) (by decide) rfl
     ⟨oAgentB, by decide, by decide, by decide, by decide⟩⟩

theorem capContrib_fold (a : Agent) (req : List CapRequirement) :
    ∀ (acc : Nat),
      req.foldl (fun acc r =>
        match a.capabilities.find? (fun cap => capMatches r cap) with
        | some c => acc + c.proficiency
        | none => acc) acc = acc + (req.map (capContrib a)).sum := by
  induction req with
  | nil => intro acc; simp
  | cons r rest ih =>
      intro acc
      rw [List.foldl_cons]
      have hstep :
          (match a.capabilities.find? (fun cap => capMatches r cap) with
            | some c => acc + c.proficiency
            | none => acc) = acc + capContrib a r := by
        unfold capContrib
        cases a.capabilities.find? (fun cap => capMatches r cap) with
        | some c => rfl
        | none => simp
      rw [hstep, ih]
      simp [List.map_cons, List.sum_cons]
      omega

theorem capScoreRaw_eq_sum (a : Agent) (req : List CapRequirement) :
    capScoreRaw a req = (req.map (capContrib a)).sum := by
  unfold capScoreRaw
  rw [capContrib_fold]
  simp

theorem sum_lt_of_pointwise (f g : CapRequirement → Nat) (req : List CapRequirement)
    (hne : req ≠ []) (hpt : ∀ r ∈ req, f r < g r) :
    (req.map f).sum < (req.map g).sum := by
  cases req with
  | nil => cases hne rfl
  | cons r rest =>
      simp only [List.map_cons, List.sum_cons]
      have h1 : f r < g r := hpt r (by simp)
      have h2 : (rest.map f).sum ≤ (rest.map g).sum :=
        List.sum_le_sum (fun i hi => le_of_lt (hpt i (by simp [hi])))
      omega

theorem capScore_lt (A B : Agent) (req : List CapRequirement) (hne : req ≠ [])
    (hload : A.currentLoad = B.currentLoad) (h100 : B.currentLoad < 100)
    (hpt : ∀ r ∈ req, capContrib B r < capContrib A r) :
    capScore B req < capScore A req := by
  unfold capScore
  rw [capScoreRaw_eq_sum, capScoreRaw_eq_sum, hload]
  have hm : (0:ℚ) < 1 - B.currentLoad / 100 := by
    have hd : B.currentLoad / 100 < 1 := (div_lt_one (by norm_num)).mpr h100
    linarith
  have hsum : (((req.map (capContrib B)).sum : Nat) : ℚ)
      < (((req.map (capContrib A)).sum : Nat) : ℚ) := by
    exact_mod_cast sum_lt_of_pointwise (capContrib B) (capContrib A) req hne hpt
  exact mul_lt_mul_of_pos_right hsum hm

theorem selectByCapability_pair (A B : Agent) (req : List CapRequirement) (hne : req ≠ [])
    (hlt : capScore B req < capScore A req) :
    selectByCapability [A, B] req = some A ∧ selectByCapability [B, A] req = some A := by
  have hreqe : req.isEmpty = false := by
    cases req with
    | nil => cases hne rfl
    | cons r rest => rfl
  have hnotlt : ¬ (capScore A req < capScore B req) := lt_asymm hlt
  constructor
  · unfold selectByCapability
    rw [hreqe]
    simp only [Bool.false_eq_true, if_false, List.map_cons, List.map_nil]
    rw [show sortDesc [(A, capScore A req), (B, capScore B req)]
        = insertDesc (A, capScore A req) (insertDesc (B, capScore B req) []) from rfl]
    rw [show insertDesc (B, capScore B req) ([] : List (Agent × ℚ))
        = [(B, capScore B req)] from rfl]
    unfold insertDesc
    rw [if_neg hnotlt]
  · unfold selectByCapability
    rw [hreqe]
    simp only [Bool.false_eq_true, if_false, List.map_cons, List.map_nil]
    rw [show sortDesc [(B, capScore B req), (A, capScore A req)]
        = insertDesc (B, capScore B req) (insertDesc (A, capScore A req) []) from rfl]
    rw [show insertDesc (A, capScore A req) ([] : List (Agent × ℚ))
        = [(A, capScore A req)] from rfl]
    unfold insertDesc
    rw [if_pos hlt]

/-- Claim C7: under the capability-based strategy with a non-empty
requirement list, of two available candidates with equal load below
100 where A's matching proficiency strictly exceeds B's on every
requirement, `assignTask` assigns the task to A, whichever order the
two are registered in. -/
theorem c7_capability_monotonic (A B : Agent) (st : Orchestrator) (p : AssignParams)
    (now : Nat)
    (hstrat : st.strategy = .capabilityBased)
    (horder : st.agents = [A, B] ∨ st.agents = [B, A])
    (hpref : p.preferred = none)
    (hreq : p.required ≠ [])
    (hA : A.status = .available) (hB : B.status = .available)
    (hload : A.currentLoad = B.currentLoad) (h100 : B.currentLoad < 100)
    (hpt : ∀ r ∈ p.required, capContrib B r < capContrib A r) :
    ∃ asg, getAssignment (assignTask st p now).2 p.taskId = some asg ∧
      asg.agentId = A.id := by
  have hfA : (A.status == AgentStatus.available && decide (A.currentLoad < 100)) = true := by
    rw [hA, hload]
    simp [h100]
  have hfB : (B.status == AgentStatus.available && decide (B.currentLoad < 100)) = true := by
    rw [hB]
    simp [h100]
  have hpair := selectByCapability_pair A B p.required hreq
    (capScore_lt A B p.required hreq hload h100 hpt)
  have hsel : selectAgent st p.required p.preferred = (some A, st) := by
    rw [hpref]
    show (let candidates := st.agents.filter (fun a =>
        a.status == .available && decide (a.currentLoad < 100))
      if candidates.isEmpty then ((none : Option Agent), st)
      else selectByStrategy st candidates p.required) = (some A, st)
    rcases horder with ho | ho
    · rw [ho]
      rw [show ([A, B].filter (fun a =>
          a.status == AgentStatus.available && decide (a.currentLoad < 100))) = [A, B] by
        simp only [List.filter, hfA, hfB]]
      show selectByStrategy st [A, B] p.required = (some A, st)
      unfold selectByStrategy
      rw [hstrat]
      rw [hpair.1]
    · rw [ho]
      rw [show ([B, A].filter (fun a =>
          a.status == AgentStatus.available && decide (a.currentLoad < 100))) = [B, A] by
        simp only [List.filter, hfA, hfB]]
      show selectByStrategy st [B, A] p.required = (some A, st)
      unfold selectByStrategy
      rw [hstrat]
      rw [hpair.2]
  unfold assignTask
  rw [hsel]
  simp only []
  exact ⟨_, getAssignment_put _ _ _ rfl, rfl⟩

/-- Witness for C7: with the proficiency-5 and proficiency-2 debugging
agents registered (weaker first) and the requirement
`{skill: "debugging"}`, the task goes to the proficiency-5 agent. -/
theorem c7_capability_monotonic_witness :
    ∃ asg, getAssignment (assignTask dbgSt dbgParams 0).2 dbgParams.taskId = some asg ∧
      asg.agentId = dbgAgent5.id :=
  c7_capability_monotonic dbgAgent5 dbgAgent2 dbgSt dbgParams 0 rfl (Or.inr rfl) rfl
    (by decide) rfl rfl rfl (by decide) (by decide)

end Handoff
